import Mathlib

/-!
# MaidSafe-Passport: credential packets and fobs

A shallow embedding of `src/maidsafe/passport/system_packets.cc` and
`src/maidsafe/passport/detail/fob.cc`.

* A `std::string` is a list of bytes (`Bytes`), each byte a natural number.
* The crypto, boost and protobuf routines live in other libraries; they are the
  fields of `Primitives`, and each theorem states the property of them it uses.
* A member function is a function from the object's state to an `Outcome`:
  it returns a value and a new state, or throws with the state it had reached,
  or never returns.
-/

namespace maidsafe
namespace passport

/-- A `std::string`: a sequence of bytes. -/
abbrev Bytes := List Nat

/-- The exceptions that can leave the functions of the two source files. -/
inductive Exn where
  | bad_lexical_cast
  | out_of_range
  | invalid_key
  | invalid_string_size
  | fob_parsing_error
  deriving DecidableEq, Repr

deriving instance DecidableEq for Except

/-- What a call of a member function does to an object with state `σ`. -/
inductive Outcome (σ α : Type) where
  | returns (value : α) (state : σ)
  | throws (e : Exn) (state : σ)
  | diverges
  deriving DecidableEq, Repr

/-- The packet kinds listed in `DebugString` / `IsSignature`. -/
inductive PacketType where
  | kUnknown | kAnmid | kAnsmid | kAntmid | kAnmaid | kMaid | kPmid
  | kMid | kSmid | kTmid | kStmid | kAnmpid | kMpid | kMmid | kMcid
  deriving DecidableEq, Repr

/-- An asymmetric public key (`asymm::PublicKey`), kept abstract. -/
structure PublicKey where
  repr : Bytes
  deriving DecidableEq, Repr

/-- An asymmetric private key (`asymm::PrivateKey`), kept abstract. -/
structure PrivateKey where
  repr : Bytes
  deriving DecidableEq, Repr

namespace protobuf

/-- Modelled from the spec: the message `protobuf::Fob` is generated from
`passport.proto` (`passport.pb.h`), which is not among the sources. Section 6.1
gives it the five fields `type`, `name`, `encoded_private_key`,
`encoded_public_key`, `validation_token`, and decoding "rejects any record
missing a field": every field is required, and a field is `none` until set. -/
structure Fob where
  type : Option Nat
  name : Option Bytes
  encoded_private_key : Option Bytes
  encoded_public_key : Option Bytes
  validation_token : Option Bytes
  deriving DecidableEq, Repr

namespace Fob

/-- A freshly declared message `protobuf::Fob proto_fob;`: no field set. -/
def unset : Fob :=
  { type := none, name := none, encoded_private_key := none,
    encoded_public_key := none, validation_token := none }

/-- `IsInitialized()`: every required field is set. -/
def IsInitialized (m : Fob) : Bool :=
  m.type.isSome && m.name.isSome && m.encoded_private_key.isSome &&
    m.encoded_public_key.isSome && m.validation_token.isSome

/-- The getter `type()`; an unset field reads as its default value. -/
def get_type (m : Fob) : Nat := m.type.getD 0

/-- The getter `name()`. -/
def get_name (m : Fob) : Bytes := m.name.getD []

/-- The getter `encoded_private_key()`. -/
def get_encoded_private_key (m : Fob) : Bytes := m.encoded_private_key.getD []

/-- The getter `encoded_public_key()`. -/
def get_encoded_public_key (m : Fob) : Bytes := m.encoded_public_key.getD []

/-- The getter `validation_token()`. -/
def get_validation_token (m : Fob) : Bytes := m.validation_token.getD []

end Fob
end protobuf

/-- The routines of `maidsafe/common/crypto.h`, `maidsafe/common/rsa.h`,
`boost/lexical_cast.hpp` and the protobuf runtime that the two source files call,
and the constants they read.
`SecurePassword` is `none` when its result code is not `kSuccess`;
`lexical_cast` is `none` when `boost::bad_lexical_cast` is thrown;
`DecodePrivateKey s` / `DecodePublicKey s` are `none` when
`asymm::DecodeKey(asymm::EncodedPrivateKey(s))` /
`asymm::DecodeKey(asymm::EncodedPublicKey(s))` throws;
`SignatureThrows s` / `IdentityThrows s` is the exception that the constructor
`asymm::Signature(s)` / `Identity(s)` of the bounded-string types throws on the
string `s`, and `none` when it constructs the value (whose string is `s`);
`ParseFromString` gives the message the parse leaves behind (the source ignores
its boolean result);
`MpidTag_kValue` and `PmidTag_kValue` are the `DataTagValue`s of those two tags. -/
structure Primitives where
  Hash : Bytes → Bytes
  SecurePassword : Bytes → Bytes → Nat → Option Bytes
  SymmEncrypt : Bytes → Bytes → Bytes → Bytes
  SymmDecrypt : Bytes → Bytes → Bytes → Bytes
  XOR : Bytes → Bytes → Bytes
  lexical_cast : Bytes → Option Nat
  AES256_KeySize : Nat
  AES256_IVSize : Nat
  EncodePublicKey : PublicKey → Bytes
  EncodePrivateKey : PrivateKey → Bytes
  DecodePublicKey : Bytes → Option PublicKey
  DecodePrivateKey : Bytes → Option PrivateKey
  Encrypt : Bytes → PublicKey → Bytes
  Decrypt : Bytes → PrivateKey → Bytes
  Sign : Bytes → PrivateKey → Bytes
  SignatureThrows : Bytes → Option Exn
  IdentityThrows : Bytes → Option Exn
  SerializeAsString : protobuf.Fob → Bytes
  ParseFromString : Bytes → protobuf.Fob
  MpidTag_kValue : Nat
  PmidTag_kValue : Nat

/-- `std::string::substr(pos, len)`: throws `std::out_of_range` (here `none`) when
`pos > size()`, otherwise the at most `len` bytes from `pos` on. -/
def substr (s : Bytes) (pos len : Nat) : Option Bytes :=
  if pos > s.length then none else some ((s.drop pos).take len)

/-- Arithmetic on `uint32_t` wraps modulo `2^32`. -/
def u32 (n : Nat) : Nat := n % 2 ^ 32

/-! ## MidPacket -/

/-- `GetMidName`: lines 37-41. -/
def GetMidName (P : Primitives) (username pin smid_appendix : Bytes) : Bytes :=
  P.Hash (username ++ pin ++ smid_appendix)

/-- The data members of `MidPacket` (with `packet_type_` and `name_` of `pki::Packet`). -/
structure MidPacket where
  packet_type : PacketType
  name : Bytes
  username : Bytes
  pin : Bytes
  smid_appendix : Bytes
  rid : Bytes
  encrypted_rid : Bytes
  salt : Bytes
  secure_key : Bytes
  secure_iv : Bytes
  deriving DecidableEq, Repr

namespace MidPacket

/-- `MidPacket::Clear`: lines 186-196. The packet type is not touched. -/
def Clear (m : MidPacket) : MidPacket :=
  { packet_type := m.packet_type, name := [], username := [], pin := [],
    smid_appendix := [], rid := [], encrypted_rid := [], salt := [],
    secure_key := [], secure_iv := [] }

/-- `MidPacket::Initialise`: lines 125-151. -/
def Initialise (P : Primitives) (m : MidPacket) : Outcome MidPacket Unit :=
  if m.username.isEmpty || m.pin.isEmpty then
    .returns () m.Clear
  else
    let m1 := { m with salt := P.Hash (m.pin ++ m.username) }
    match P.lexical_cast m1.pin with
    | none => .returns () m1.Clear
    | some pin =>
      match P.SecurePassword m1.username m1.salt pin with
      | none => .returns () m1.Clear
      | some secure_password =>
        match substr secure_password 0 P.AES256_KeySize with
        | none => .throws .out_of_range m1
        | some key =>
          let m2 := { m1 with secure_key := key }
          match substr secure_password P.AES256_KeySize P.AES256_IVSize with
          | none => .throws .out_of_range m2
          | some iv =>
            let m3 := { m2 with secure_iv := iv }
            let m4 := { m3 with name := GetMidName P m3.username m3.pin m3.smid_appendix }
            if m4.name.isEmpty then .returns () m4.Clear else .returns () m4

/-- The default constructor `MidPacket::MidPacket()`: lines 99-108. -/
def newEmpty : MidPacket :=
  { packet_type := .kUnknown, name := [], username := [], pin := [],
    smid_appendix := [], rid := [], encrypted_rid := [], salt := [],
    secure_key := [], secure_iv := [] }

/-- The constructor `MidPacket::MidPacket(username, pin, smid_appendix)`: lines 110-123. -/
def new (P : Primitives) (username pin smid_appendix : Bytes) : Outcome MidPacket Unit :=
  Initialise P
    { packet_type := if smid_appendix.isEmpty then .kMid else .kSmid,
      name := [], username := username, pin := pin, smid_appendix := smid_appendix,
      rid := [], encrypted_rid := [], salt := [], secure_key := [], secure_iv := [] }

/-- `MidPacket::SetRid`: lines 153-166. -/
def SetRid (P : Primitives) (m : MidPacket) (rid : Bytes) : MidPacket :=
  let m1 := { m with rid := rid }
  if m1.rid.isEmpty then
    m1.Clear
  else
    let m2 := { m1 with encrypted_rid := P.SymmEncrypt m1.rid m1.secure_key m1.secure_iv }
    if m2.encrypted_rid.isEmpty then m2.Clear else m2

/-- `MidPacket::DecryptRid`: lines 168-184; the returned string and the new state. -/
def DecryptRid (P : Primitives) (m : MidPacket) (encrypted_rid : Bytes) : Bytes × MidPacket :=
  if m.username.isEmpty || m.pin.isEmpty || encrypted_rid.isEmpty then
    ([], m.Clear)
  else
    let m1 := { m with encrypted_rid := encrypted_rid }
    let m2 := { m1 with rid := P.SymmDecrypt m1.encrypted_rid m1.secure_key m1.secure_iv }
    if m2.rid.isEmpty then ([], m2.Clear) else (m2.rid, m2)

end MidPacket

/-! ## TmidPacket -/

/-- The data members of `TmidPacket` (with `packet_type_` and `name_` of `pki::Packet`). -/
structure TmidPacket where
  packet_type : PacketType
  name : Bytes
  username : Bytes
  pin : Bytes
  password : Bytes
  rid : Bytes
  plain_text_master_data : Bytes
  salt : Bytes
  secure_key : Bytes
  secure_iv : Bytes
  encrypted_master_data : Bytes
  obfuscated_master_data : Bytes
  obfuscation_salt : Bytes
  deriving DecidableEq, Repr

/-- The loop of lines 289-293: `i` runs over the next `k` indices of `rid_`,
`acc` is `random_no_from_rid` (a `uint32_t`) and `a` the `int64_t` multiplier.
`none` when `rid_.at(i)` throws `std::out_of_range`. -/
def ridLoop (rid : Bytes) : Nat → Nat → Nat → Nat → Option Nat
  | 0, _, acc, _ => some acc
  | k + 1, i, acc, a =>
    match rid[i]? with
    | none => none
    | some c =>
      let temp := c % 256
      ridLoop rid k (i + 1) (u32 (acc + u32 (temp * a))) (a * 256)

/-- The value of `random_no_from_rid` after the loop of lines 287-293. -/
def random_no_from_rid (rid : Bytes) : Option Nat := ridLoop rid 4 0 0 1

/-- The `rounds` of lines 318 and 358, in `uint32_t` arithmetic. -/
def rounds (numerical_pin : Nat) : Nat :=
  if numerical_pin / 2 = 0 then u32 (numerical_pin * 3) / 2 else numerical_pin / 2

/-- The loop `while (n > obfuscation_str.size()) obfuscation_str += obfuscation_str;`
of lines 330-331 and 374-375. Appending an empty string to itself makes no
progress, so with an empty string and `n > 0` the loop never exits: `none`. -/
def doubleUntil (n : Nat) (obfuscation_str : Bytes) : Option Bytes :=
  if n > obfuscation_str.length then
    if obfuscation_str.length = 0 then none
    else doubleUntil n (obfuscation_str ++ obfuscation_str)
  else some obfuscation_str
termination_by n - obfuscation_str.length
decreasing_by simp only [List.length_append]; omega

/-- Lines 326-333 and 370-377: bring `obfuscation_str` to the size `n` of the data.
`none` when the doubling loop never exits. -/
def resizeForXor (n : Nat) (obfuscation_str : Bytes) : Option Bytes :=
  if n < obfuscation_str.length then
    some (obfuscation_str.take n)
  else if n > obfuscation_str.length then
    match doubleUntil n obfuscation_str with
    | none => none
    | some s => some (s.take n)
  else some obfuscation_str

namespace TmidPacket

/-- `TmidPacket::Clear`: lines 412-425. The packet type is not touched. -/
def Clear (t : TmidPacket) : TmidPacket :=
  { packet_type := t.packet_type, name := [], username := [], pin := [], password := [],
    rid := [], plain_text_master_data := [], salt := [], secure_key := [], secure_iv := [],
    encrypted_master_data := [], obfuscated_master_data := [], obfuscation_salt := [] }

/-- The empty packet of a kind: every string member empty (the state `Clear` leaves). -/
def emptyWith (packet_type : PacketType) : TmidPacket :=
  { packet_type := packet_type, name := [], username := [], pin := [], password := [],
    rid := [], plain_text_master_data := [], salt := [], secure_key := [], secure_iv := [],
    encrypted_master_data := [], obfuscated_master_data := [], obfuscation_salt := [] }

/-- `TmidPacket::SetPassword`: lines 271-306. -/
def SetPassword (P : Primitives) (t : TmidPacket) : Outcome TmidPacket Bool :=
  if t.password.isEmpty || t.rid.length < 4 then
    .returns false { t with salt := [], secure_key := [], secure_iv := [] }
  else
    let t1 := { t with salt := P.Hash (t.rid ++ t.password) }
    if t1.salt.isEmpty then
      .returns false t1.Clear
    else
      match random_no_from_rid t1.rid with
      | none => .throws .out_of_range t1
      | some random_no =>
        match P.SecurePassword t1.password t1.salt random_no with
        | none => .returns false t1.Clear
        | some secure_password =>
          match substr secure_password 0 P.AES256_KeySize with
          | none => .throws .out_of_range t1
          | some key =>
            let t2 := { t1 with secure_key := key }
            match substr secure_password P.AES256_KeySize P.AES256_IVSize with
            | none => .throws .out_of_range t2
            | some iv => .returns true { t2 with secure_iv := iv }

/-- `TmidPacket::ObfuscatePlainData`: lines 308-338. -/
def ObfuscatePlainData (P : Primitives) (t : TmidPacket) : Outcome TmidPacket Bool :=
  if t.plain_text_master_data.isEmpty || t.username.isEmpty || t.pin.isEmpty then
    .returns false { t with obfuscated_master_data := [] }
  else
    let t1 := { t with obfuscation_salt := P.Hash (t.password ++ t.rid) }
    match P.lexical_cast t1.pin with
    | none => .throws .bad_lexical_cast t1
    | some numerical_pin =>
      match P.SecurePassword t1.username t1.obfuscation_salt (rounds numerical_pin) with
      | none => .returns false t1
      | some obfuscation_str =>
        match resizeForXor t1.plain_text_master_data.length obfuscation_str with
        | none => .diverges
        | some obfuscation_str =>
          .returns true
            { t1 with obfuscated_master_data := P.XOR t1.plain_text_master_data obfuscation_str }

/-- `TmidPacket::SetPlainData`: lines 340-354. -/
def SetPlainData (P : Primitives) (t : TmidPacket) : Bool × TmidPacket :=
  if t.obfuscated_master_data.isEmpty || t.secure_key.isEmpty || t.secure_iv.isEmpty then
    (false, { t with encrypted_master_data := [] })
  else
    let t1 := { t with encrypted_master_data :=
                  P.SymmEncrypt t.obfuscated_master_data t.secure_key t.secure_iv }
    if t1.encrypted_master_data.isEmpty then (false, t1.Clear) else (true, t1)

/-- `TmidPacket::ClarifyObfuscatedData`: lines 356-381. -/
def ClarifyObfuscatedData (P : Primitives) (t : TmidPacket) : Outcome TmidPacket Bool :=
  match P.lexical_cast t.pin with
  | none => .throws .bad_lexical_cast t
  | some numerical_pin =>
    match P.SecurePassword t.username (P.Hash (t.password ++ t.rid)) (rounds numerical_pin) with
    | none => .returns false t
    | some obfuscation_str =>
      match resizeForXor t.obfuscated_master_data.length obfuscation_str with
      | none => .diverges
      | some obfuscation_str =>
        .returns true
          { t with plain_text_master_data := P.XOR t.obfuscated_master_data obfuscation_str }

/-- `TmidPacket::Initialise`: lines 247-269. -/
def Initialise (P : Primitives) (t : TmidPacket) : Outcome TmidPacket Unit :=
  if t.username.isEmpty || t.pin.isEmpty || t.rid.isEmpty then
    .returns () t.Clear
  else
    match SetPassword P t with
    | .diverges => .diverges
    | .throws e s => .throws e s
    | .returns false t1 => .returns () t1
    | .returns true t1 =>
      match ObfuscatePlainData P t1 with
      | .diverges => .diverges
      | .throws e s => .throws e s
      | .returns false t2 => .returns () t2
      | .returns true t2 =>
        match SetPlainData P t2 with
        | (false, t3) => .returns () t3
        | (true, t3) => .returns () { t3 with name := P.Hash t3.encrypted_master_data }

/-- The default constructor `TmidPacket::TmidPacket()`: lines 213-225. -/
def newEmpty : TmidPacket :=
  { packet_type := .kUnknown, name := [], username := [], pin := [], password := [],
    rid := [], plain_text_master_data := [], salt := [], secure_key := [], secure_iv := [],
    encrypted_master_data := [], obfuscated_master_data := [], obfuscation_salt := [] }

/-- The constructor `TmidPacket::TmidPacket(username, pin, surrogate, password,
plain_text_master_data)`: lines 227-245. -/
def new (P : Primitives) (username pin : Bytes) (surrogate : Bool)
    (password plain_text_master_data : Bytes) : Outcome TmidPacket Unit :=
  Initialise P
    { packet_type := if surrogate then .kStmid else .kTmid,
      name := [], username := username, pin := pin, password := password,
      rid := P.Hash pin, plain_text_master_data := plain_text_master_data,
      salt := [], secure_key := [], secure_iv := [], encrypted_master_data := [],
      obfuscated_master_data := [], obfuscation_salt := [] }

/-- `TmidPacket::DecryptMasterData`: lines 383-410. -/
def DecryptMasterData (P : Primitives) (t : TmidPacket)
    (password encrypted_master_data : Bytes) : Outcome TmidPacket Bytes :=
  let t0 := { t with password := password }
  match SetPassword P t0 with
  | .diverges => .diverges
  | .throws e s => .throws e s
  | .returns false t1 => .returns [] t1
  | .returns true t1 =>
    if encrypted_master_data.isEmpty then
      .returns [] { t1 with password := [], salt := [], secure_key := [], secure_iv := [] }
    else
      let t2 := { t1 with encrypted_master_data := encrypted_master_data }
      let t3 := { t2 with obfuscated_master_data :=
                    P.SymmDecrypt t2.encrypted_master_data t2.secure_key t2.secure_iv }
      let t4 := if t3.obfuscated_master_data.isEmpty then t3.Clear else t3
      match ClarifyObfuscatedData P t4 with
      | .diverges => .diverges
      | .throws e s => .throws e s
      | .returns false t5 => .returns [] t5
      | .returns true t5 => .returns t5.plain_text_master_data t5

end TmidPacket

/-! ## Fobs -/

/-- `asymm::Keys`: a private and a public key. -/
structure Keys where
  private_key : PrivateKey
  public_key : PublicKey
  deriving DecidableEq, Repr

/-- The data members of `Fob<Tag>`: `keys_`, `validation_token_`, `name_`, the last
two by the strings they hold. That a string is a value of `asymm::Signature` or
of `Identity` is `P.SignatureThrows s = none` or `P.IdentityThrows s = none`. -/
structure Fob where
  keys : Keys
  validation_token : Bytes
  name : Bytes
  deriving DecidableEq, Repr

/-- `CreateFobName`: lines 29-32. -/
def CreateFobName (P : Primitives) (public_key : PublicKey) (validation_token : Bytes) : Bytes :=
  P.Hash (P.EncodePublicKey public_key ++ validation_token)

/-- `CreateMpidName`: lines 34-36. -/
def CreateMpidName (P : Primitives) (chosen_name : Bytes) : Bytes :=
  P.Hash chosen_name

/-- `FobFromProtobuf`: lines 38-57. `enum_value` is a `DataTagValue`, `plain` the
string `RandomString(64)` yields in this call; the result holds the three
output parameters `keys`, `validation_token`, `name`. The constructions
`asymm::Signature(proto_fob.validation_token())` of line 46 and
`Identity(proto_fob.name())` of line 47 run in this order before the keys are
decoded; an exception of theirs leaves the function as it is (nothing catches
it). -/
def FobFromProtobuf (P : Primitives) (proto_fob : protobuf.Fob) (enum_value : Nat)
    (plain : Bytes) : Except Exn Fob :=
  if !proto_fob.IsInitialized then
    .error .fob_parsing_error
  else
    match P.SignatureThrows proto_fob.get_validation_token with
    | some e => .error e
    | none =>
      let validation_token := proto_fob.get_validation_token
      match P.IdentityThrows proto_fob.get_name with
      | some e => .error e
      | none =>
        let name := proto_fob.get_name
        match P.DecodePrivateKey proto_fob.get_encoded_private_key with
        | none => .error .invalid_key
        | some private_key =>
          match P.DecodePublicKey proto_fob.get_encoded_public_key with
          | none => .error .invalid_key
          | some public_key =>
            if (enum_value != P.MpidTag_kValue &&
                  CreateFobName P public_key validation_token != name) ||
                P.Decrypt (P.Encrypt plain public_key) private_key != plain ||
                enum_value != proto_fob.get_type then
              .error .fob_parsing_error
            else
              .ok { keys := { private_key := private_key, public_key := public_key },
                    validation_token := validation_token, name := name }

/-- `FobToProtobuf`: lines 59-69; the message `*proto_fob` after the five setters. -/
def FobToProtobuf (P : Primitives) (enum_value : Nat) (keys : Keys)
    (validation_token name : Bytes) (proto_fob : protobuf.Fob) : protobuf.Fob :=
  { proto_fob with
    type := some (u32 enum_value),
    name := some name,
    encoded_private_key := some (P.EncodePrivateKey keys.private_key),
    encoded_public_key := some (P.EncodePublicKey keys.public_key),
    validation_token := some validation_token }

namespace Fob

/-- The decoding constructor `Fob<MpidTag>::Fob(const protobuf::Fob&)`, lines
102-106, with the tag's `kValue` as the argument `kValue` (the source passes
`MpidTag::kValue`). -/
def fromProtobuf (P : Primitives) (kValue : Nat) (proto_fob : protobuf.Fob)
    (plain : Bytes) : Except Exn Fob :=
  FobFromProtobuf P proto_fob kValue plain

/-- The constructor `Fob<MpidTag>::Fob(chosen_name, signing_fob)`, lines 77-81.
`generated` is the key pair `asymm::GenerateKeyPair()` yields in this call. The
members are initialised in the order `keys_`, `validation_token_`, `name_`. -/
def newMpid (P : Primitives) (generated : Keys) (chosen_name : Bytes) (signing_fob : Fob) :
    Fob :=
  let keys := generated
  let validation_token :=
    P.Sign (P.EncodePublicKey keys.public_key) signing_fob.keys.private_key
  { keys := keys, validation_token := validation_token,
    name := CreateMpidName P chosen_name }

/-- `Fob<MpidTag>::ToProtobuf`, lines 108-110, with the tag's `kValue` as argument. -/
def ToProtobuf (P : Primitives) (kValue : Nat) (f : Fob) (proto_fob : protobuf.Fob) :
    protobuf.Fob :=
  FobToProtobuf P kValue f.keys f.validation_token f.name proto_fob

/-- The body shared by `SerialisePmid`, `SerialiseAnmaid` and `SerialiseMaid`
(lines 113-117, 127-131, 139-143), at the tag value `kValue`. -/
def Serialise (P : Primitives) (kValue : Nat) (f : Fob) : Bytes :=
  P.SerializeAsString (f.ToProtobuf P kValue protobuf.Fob.unset)

/-- The body shared by `ParsePmid`, `ParseAnmaid` and `ParseMaid`
(lines 119-123, 133-137, 145-149), at the tag value `kValue`. -/
def Parse (P : Primitives) (kValue : Nat) (serialised : Bytes) (plain : Bytes) :
    Except Exn Fob :=
  fromProtobuf P kValue (P.ParseFromString serialised) plain

end Fob

/-- `SerialisePmid`: lines 113-117. -/
def SerialisePmid (P : Primitives) (pmid : Fob) : Bytes :=
  Fob.Serialise P P.PmidTag_kValue pmid

/-- `ParsePmid`: lines 119-123. -/
def ParsePmid (P : Primitives) (serialised_pmid : Bytes) (plain : Bytes) : Except Exn Fob :=
  Fob.Parse P P.PmidTag_kValue serialised_pmid plain

/-! ## An executable instance of the primitives

The theorems below hold for every `Primitives`. `sample` is one small instance
on which the definitions can be evaluated. -/

namespace sample

/-- A one-byte checksum. -/
def digest (x : Bytes) : Nat :=
  x.foldl (fun acc b => (acc * 31 + b + 1) % 251) 7

/-- A 64-byte "hash". -/
def Hash (x : Bytes) : Bytes :=
  (List.range 64).map (fun i => (digest x + i) % 256)

/-- The 48 bytes `c, c + 1, ...` modulo 256. -/
def stream (c : Nat) : Bytes :=
  (List.range 48).map (fun i => (c + i) % 256)

/-- A 48-byte derived password; fails on an empty password or salt. -/
def SecurePassword (password salt : Bytes) (pin : Nat) : Option Bytes :=
  if password.isEmpty || salt.isEmpty then none
  else some (stream (digest (password ++ salt) + pin))

/-- The "ciphertext" is the data behind a byte that depends on key and IV. -/
def SymmEncrypt (data key iv : Bytes) : Bytes :=
  if data.isEmpty || key.length != 32 || iv.length != 16 then []
  else digest (key ++ iv) :: data

/-- The inverse of `SymmEncrypt`; empty under any other key or IV. -/
def SymmDecrypt (data key iv : Bytes) : Bytes :=
  match data with
  | [] => []
  | c :: rest =>
    if key.length != 32 || iv.length != 16 || c != digest (key ++ iv) then [] else rest

/-- Bytewise exclusive or of two strings of one length; empty otherwise. -/
def XOR (a b : Bytes) : Bytes :=
  if a.length != b.length then [] else List.zipWith Nat.xor a b

/-- The value of a string of decimal digits, read from the left. -/
def digits : Bytes → Nat → Option Nat
  | [], acc => some acc
  | c :: rest, acc => if 48 ≤ c ∧ c ≤ 57 then digits rest (acc * 10 + (c - 48)) else none

/-- A non-empty string of decimal digits with a value below `2^32`. -/
def lexical_cast (s : Bytes) : Option Nat :=
  if s.isEmpty then none
  else match digits s 0 with
    | none => none
    | some n => if n < 2 ^ 32 then some n else none

/-- A key decodes from any non-empty string. -/
def DecodePublicKey (b : Bytes) : Option PublicKey :=
  if b.isEmpty then none else some { repr := b }

/-- A key decodes from any non-empty string. -/
def DecodePrivateKey (b : Bytes) : Option PrivateKey :=
  if b.isEmpty then none else some { repr := b }

/-- The plaintext behind the bytes of the public key. -/
def Encrypt (plain : Bytes) (k : PublicKey) : Bytes := k.repr ++ plain

/-- Strips the bytes of the key when the ciphertext starts with them. -/
def Decrypt (cipher : Bytes) (k : PrivateKey) : Bytes :=
  if cipher.take k.repr.length = k.repr then cipher.drop k.repr.length else []

/-- One optional length-prefixed field. -/
def putField : Option Bytes → Bytes
  | none => [0]
  | some b => 1 :: b.length :: b

/-- Reads one optional length-prefixed field and gives the rest of the input. -/
def getField : Bytes → Option Bytes × Bytes
  | 1 :: n :: rest => (some (rest.take n), rest.drop n)
  | _ :: rest => (none, rest)
  | [] => (none, [])

/-- The five fields of a fob record, one after the other. -/
def SerializeAsString (m : protobuf.Fob) : Bytes :=
  (match m.type with
    | none => [0]
    | some n => [1, n]) ++
  putField m.name ++ putField m.encoded_private_key ++
  putField m.encoded_public_key ++ putField m.validation_token

/-- Reads the five fields back. -/
def ParseFromString (s : Bytes) : protobuf.Fob :=
  let (type, s1) : Option Nat × Bytes :=
    match s with
    | 1 :: n :: rest => (some n, rest)
    | _ :: rest => (none, rest)
    | [] => (none, [])
  let (name, s2) := getField s1
  let (priv, s3) := getField s2
  let (pub, s4) := getField s3
  let (token, _) := getField s4
  { type := type, name := name, encoded_private_key := priv,
    encoded_public_key := pub, validation_token := token }

/-- A signature is a non-empty string. -/
def SignatureThrows (s : Bytes) : Option Exn :=
  if s.isEmpty then some .invalid_string_size else none

/-- An identity is a string of 64 bytes. -/
def IdentityThrows (s : Bytes) : Option Exn :=
  if s.length != 64 then some .invalid_string_size else none

/-- The instance. -/
def primitives : Primitives :=
  { Hash := Hash, SecurePassword := SecurePassword, SymmEncrypt := SymmEncrypt,
    SymmDecrypt := SymmDecrypt, XOR := XOR, lexical_cast := lexical_cast,
    AES256_KeySize := 32, AES256_IVSize := 16,
    EncodePublicKey := fun k => k.repr, EncodePrivateKey := fun k => k.repr,
    DecodePublicKey := DecodePublicKey, DecodePrivateKey := DecodePrivateKey,
    Encrypt := Encrypt, Decrypt := Decrypt, Sign := fun data k => k.repr ++ data,
    SignatureThrows := SignatureThrows, IdentityThrows := IdentityThrows,
    SerializeAsString := SerializeAsString, ParseFromString := ParseFromString,
    MpidTag_kValue := 10, PmidTag_kValue := 5 }

/-- The instance with a key derivation that always fails. -/
def noKdf : Primitives :=
  { primitives with SecurePassword := fun _ _ _ => none }

/-- The instance with a cipher whose encryption always fails (empty result). -/
def noCipher : Primitives :=
  { primitives with SymmEncrypt := fun _ _ _ => [] }

/-- A fob whose two keys match and whose name is `CreateFobName` of its public
key and token. -/
def fob : Fob :=
  { keys := { private_key := { repr := [1, 2] }, public_key := { repr := [1, 2] } },
    validation_token := [9],
    name := CreateFobName primitives { repr := [1, 2] } [9] }

/-- The packet that `TmidPacket("u", "1", false, "", "")` constructs: username,
PIN and `rid = H(pin)` only. -/
def sibling : TmidPacket :=
  { packet_type := .kTmid, name := [], username := [117], pin := [49], password := [],
    rid := Hash [49], plain_text_master_data := [], salt := [],
    secure_key := [], secure_iv := [], encrypted_master_data := [],
    obfuscated_master_data := [], obfuscation_salt := [] }

/-- The packet that `TmidPacket("u", "1", false, "p", "MNO")` constructs. -/
def packet : TmidPacket :=
  { packet_type := .kTmid, name := Hash [166, 24, 24, 24], username := [117],
    pin := [49], password := [112], rid := Hash [49],
    plain_text_master_data := [77, 78, 79],
    salt := Hash (Hash [49] ++ [112]),
    secure_key := (stream 319951227).take 32,
    secure_iv := ((stream 319951227).drop 32).take 16,
    encrypted_master_data := [166, 24, 24, 24],
    obfuscated_master_data := [24, 24, 24],
    obfuscation_salt := Hash ([112] ++ Hash [49]) }

end sample

/-! ## Notions used in the statements about `MidPacket` -/

namespace MidPacket

/-- The *empty* state: every string member is empty. -/
def IsEmpty (m : MidPacket) : Prop :=
  m.name = [] ∧ m.username = [] ∧ m.pin = [] ∧ m.smid_appendix = [] ∧ m.rid = [] ∧
    m.encrypted_rid = [] ∧ m.salt = [] ∧ m.secure_key = [] ∧ m.secure_iv = []

instance (m : MidPacket) : Decidable m.IsEmpty := by
  unfold IsEmpty
  exact inferInstance

/-- The *initialised* state: name, username, PIN, salt, key and IV are all present. -/
def IsInitialised (m : MidPacket) : Prop :=
  m.name ≠ [] ∧ m.username ≠ [] ∧ m.pin ≠ [] ∧ m.salt ≠ [] ∧ m.secure_key ≠ [] ∧
    m.secure_iv ≠ []

instance (m : MidPacket) : Decidable m.IsInitialised := by
  unfold IsInitialised
  exact inferInstance

/-- The states a `MidPacket` can be in: what either constructor returns, and what
`SetRid`, `DecryptRid` and `Clear` make of such a state. -/
inductive Reachable (P : Primitives) : MidPacket → Prop where
  | newEmpty : Reachable P MidPacket.newEmpty
  | new (username pin smid_appendix : Bytes) (m : MidPacket) :
      MidPacket.new P username pin smid_appendix = .returns () m → Reachable P m
  | SetRid (m : MidPacket) (rid : Bytes) :
      Reachable P m → Reachable P (MidPacket.SetRid P m rid)
  | DecryptRid (m : MidPacket) (encrypted_rid : Bytes) :
      Reachable P m → Reachable P (MidPacket.DecryptRid P m encrypted_rid).2
  | Clear (m : MidPacket) : Reachable P m → Reachable P m.Clear

end MidPacket

/-! ## Notions used in the statements about `TmidPacket` -/

/-- The same outcome with `f` applied to the state it carries. -/
def Outcome.mapState {σ α : Type} (f : σ → σ) : Outcome σ α → Outcome σ α
  | .returns value state => .returns value (f state)
  | .throws e state => .throws e (f state)
  | .diverges => .diverges

/-- The packet `t` with another kind and every other member unchanged. -/
def TmidPacket.withType (packet_type : PacketType) (t : TmidPacket) : TmidPacket :=
  { t with packet_type := packet_type }

/-- The primitives `P` with a key derivation that fails for every iteration count
other than `count` and is that of `P` at `count`. A function gives the same
outcome under `P.kdfOnlyAt count` as under `P` exactly when `count` is the only
iteration count it passes to `SecurePassword`. -/
def Primitives.kdfOnlyAt (P : Primitives) (count : Nat) : Primitives :=
  { P with SecurePassword := fun password salt pin =>
      if pin = count then P.SecurePassword password salt pin else none }

/-- The state the object is left in when the call ends, by returning or by
throwing; `none` when the call never ends. -/
def Outcome.finalState {σ α : Type} : Outcome σ α → Option σ
  | .returns _ state => some state
  | .throws _ state => some state
  | .diverges => none

namespace TmidPacket

/-- The states a `TmidPacket` can be in: what either constructor returns, and what
`Clear` and the calls `DecryptMasterData(password, encrypted_master_data)` that
`allowed` admits make of such a state. -/
inductive Reachable (P : Primitives) (allowed : TmidPacket → Bytes → Bytes → Prop) :
    TmidPacket → Prop where
  | newEmpty : Reachable P allowed TmidPacket.newEmpty
  | new (username pin : Bytes) (surrogate : Bool) (password plain_text_master_data : Bytes)
      (t : TmidPacket) :
      TmidPacket.new P username pin surrogate password plain_text_master_data
        = .returns () t → Reachable P allowed t
  | Clear (t : TmidPacket) : Reachable P allowed t → Reachable P allowed t.Clear
  | DecryptMasterData (t : TmidPacket) (password encrypted_master_data : Bytes)
      (t2 : TmidPacket) :
      Reachable P allowed t → allowed t password encrypted_master_data →
      (TmidPacket.DecryptMasterData P t password encrypted_master_data).finalState = some t2 →
      Reachable P allowed t2

/-- Every call of `DecryptMasterData` is admitted. -/
def anyCall (_ : TmidPacket) (_ _ : Bytes) : Prop := True

/-- The calls of `DecryptMasterData` that cannot store a ciphertext the name does not
address: the given ciphertext is empty, or the packet has no name, or the
ciphertext hashes to the name. -/
def namePreservingCall (P : Primitives) (t : TmidPacket) (_ encrypted_master_data : Bytes) :
    Prop :=
  encrypted_master_data = [] ∨ t.name = [] ∨ P.Hash encrypted_master_data = t.name

end TmidPacket

/-! ## The strings of the example of two pairs with one name -/

/-- The string "user1". -/
def str_user1 : Bytes := [117, 115, 101, 114, 49]

/-- The string "23". -/
def str_23 : Bytes := [50, 51]

/-- The string "user". -/
def str_user : Bytes := [117, 115, 101, 114]

/-- The string "123". -/
def str_123 : Bytes := [49, 50, 51]

/-! ## The little-endian reading of `rid`, and properties of the primitives that the
theorems assume -/

/-- The first four bytes of `rid`, each read as an unsigned byte, as a
little-endian number: `rid[0] + rid[1]*256 + rid[2]*256^2 + rid[3]*256^3`. -/
def littleEndianU32 (rid : Bytes) : Nat :=
  rid.getD 0 0 % 256 + rid.getD 1 0 % 256 * 256 + rid.getD 2 0 % 256 * 256 ^ 2 +
    rid.getD 3 0 % 256 * 256 ^ 3

/-- `XOR` of two strings of one length has that length, and applying the same
second operand again gives the first operand back. -/
def XorInvolutive (P : Primitives) : Prop :=
  ∀ a b : Bytes, a.length = b.length →
    (P.XOR a b).length = a.length ∧ P.XOR (P.XOR a b) b = a

/-- `XOR` of two strings of one length is the bytewise exclusive or. -/
def XorBytewise (P : Primitives) : Prop :=
  ∀ a b : Bytes, a.length = b.length → P.XOR a b = List.zipWith Nat.xor a b

/-- `SymmDecrypt` inverts a successful `SymmEncrypt` under the same key and IV. -/
def SymmInverse (P : Primitives) : Prop :=
  ∀ data key iv : Bytes, P.SymmEncrypt data key iv ≠ [] →
    P.SymmDecrypt (P.SymmEncrypt data key iv) key iv = data

/-! ## Auxiliary lemmas -/

theorem substr_zero (s : Bytes) (len : Nat) : substr s 0 len = some (s.take len) := by
  simp [substr]

theorem substr_of_le (s : Bytes) (pos len : Nat) (h : pos ≤ s.length) :
    substr s pos len = some ((s.drop pos).take len) := by
  simp [substr, Nat.not_lt.mpr h]

theorem isEmpty_eq_false_of_ne {x : Bytes} (h : x ≠ []) : x.isEmpty = false := by
  cases x with
  | nil => exact absurd rfl h
  | cons a t => rfl

theorem ne_nil_of_length_pos {x : Bytes} (h : 0 < x.length) : x ≠ [] := by
  intro hx
  rw [hx] at h
  exact Nat.lt_irrefl 0 h

theorem random_no_from_rid_eq (rid : Bytes) (h : 4 ≤ rid.length) :
    random_no_from_rid rid = some (littleEndianU32 rid) := by
  match rid, h with
  | b0 :: b1 :: b2 :: b3 :: rest, _ =>
    simp only [random_no_from_rid, ridLoop, littleEndianU32, u32, List.getElem?_cons_zero,
      List.getElem?_cons_succ, List.getD_cons_zero, List.getD_cons_succ, Option.some.injEq]
    omega

/-- The doubling loop exits when it starts from a non-empty string. -/
theorem doubleUntil_some (n : Nat) :
    ∀ (k : Nat) (s : Bytes), n - s.length ≤ k → s ≠ [] →
      ∃ r, doubleUntil n s = some r ∧ n ≤ r.length
  | 0, s, hk, _ => by
    rw [doubleUntil]
    have hle : ¬ n > s.length := by omega
    simp only [hle, if_false]
    exact ⟨s, rfl, by omega⟩
  | k + 1, s, hk, hs => by
    rw [doubleUntil]
    by_cases hgt : n > s.length
    · have hlen : s.length ≠ 0 := fun h0 => hs (List.length_eq_zero.mp h0)
      simp only [hgt, hlen, if_true, if_false]
      have hpos : 0 < s.length := Nat.pos_of_ne_zero hlen
      refine doubleUntil_some n k (s ++ s) ?_ ?_
      · simp only [List.length_append]; omega
      · intro happ
        exact hs (List.append_eq_nil.mp happ).1
    · simp only [hgt, if_false]
      exact ⟨s, rfl, by omega⟩

/-- Resizing a non-empty string for the XOR gives a string of the wanted length. -/
theorem resizeForXor_some (n : Nat) (s : Bytes) (hs : s ≠ []) :
    ∃ r, resizeForXor n s = some r ∧ r.length = n := by
  unfold resizeForXor
  by_cases hlt : n < s.length
  · simp only [hlt, if_true]
    exact ⟨s.take n, rfl, by simp only [List.length_take]; omega⟩
  · by_cases hgt : n > s.length
    · obtain ⟨r, hr, hn⟩ := doubleUntil_some n (n - s.length) s (Nat.le_refl _) hs
      simp only [hlt, hgt, if_true, if_false, hr]
      exact ⟨r.take n, rfl, by simp only [List.length_take]; omega⟩
    · simp only [hlt, hgt, if_false]
      exact ⟨s, rfl, by omega⟩

/-- What `SetPassword` does when every step succeeds. -/
theorem TmidPacket_SetPassword_of_success (P : Primitives) (t : TmidPacket) (sp : Bytes)
    (hpw : t.password ≠ []) (hrid : 4 ≤ t.rid.length)
    (hsalt : P.Hash (t.rid ++ t.password) ≠ [])
    (hkdf : P.SecurePassword t.password (P.Hash (t.rid ++ t.password))
      (littleEndianU32 t.rid) = some sp)
    (hk : P.AES256_KeySize ≤ sp.length) :
    TmidPacket.SetPassword P t = .returns true
      { t with salt := P.Hash (t.rid ++ t.password),
               secure_key := sp.take P.AES256_KeySize,
               secure_iv := (sp.drop P.AES256_KeySize).take P.AES256_IVSize } := by
  have h4 : ¬ t.rid.length < 4 := by omega
  simp only [TmidPacket.SetPassword, isEmpty_eq_false_of_ne hpw, h4, decide_False,
    Bool.or_self, Bool.false_eq_true, if_false, isEmpty_eq_false_of_ne hsalt,
    random_no_from_rid_eq _ hrid, hkdf, substr_zero, substr_of_le _ _ _ hk]

/-- What `ObfuscatePlainData` does when every step succeeds. -/
theorem TmidPacket_ObfuscatePlainData_of_success (P : Primitives) (t : TmidPacket)
    (n : Nat) (os obf : Bytes)
    (hm : t.plain_text_master_data ≠ []) (hu : t.username ≠ []) (hp : t.pin ≠ [])
    (hparse : P.lexical_cast t.pin = some n)
    (hkdf : P.SecurePassword t.username (P.Hash (t.password ++ t.rid)) (rounds n) = some os)
    (hres : resizeForXor t.plain_text_master_data.length os = some obf) :
    TmidPacket.ObfuscatePlainData P t = .returns true
      { t with obfuscation_salt := P.Hash (t.password ++ t.rid),
               obfuscated_master_data := P.XOR t.plain_text_master_data obf } := by
  simp only [TmidPacket.ObfuscatePlainData, isEmpty_eq_false_of_ne hm,
    isEmpty_eq_false_of_ne hu, isEmpty_eq_false_of_ne hp, Bool.or_self, Bool.false_eq_true,
    if_false, hparse, hkdf, hres]

/-- What `ClarifyObfuscatedData` does when every step succeeds. -/
theorem TmidPacket_ClarifyObfuscatedData_of_success (P : Primitives) (t : TmidPacket)
    (n : Nat) (os obf : Bytes)
    (hparse : P.lexical_cast t.pin = some n)
    (hkdf : P.SecurePassword t.username (P.Hash (t.password ++ t.rid)) (rounds n) = some os)
    (hres : resizeForXor t.obfuscated_master_data.length os = some obf) :
    TmidPacket.ClarifyObfuscatedData P t = .returns true
      { t with plain_text_master_data := P.XOR t.obfuscated_master_data obf } := by
  simp only [TmidPacket.ClarifyObfuscatedData, hparse, hkdf, hres]

/-- What the constructor of `TmidPacket` gives when every step succeeds; `obf` is
the obfuscation string after resizing. -/
theorem TmidPacket_new_of_success (P : Primitives) (u p pw m sp os obf : Bytes) (n : Nat)
    (s : Bool)
    (hu : u ≠ []) (hp : p ≠ []) (hparse : P.lexical_cast p = some n)
    (hpw : pw ≠ []) (hm : m ≠ [])
    (hrid : 4 ≤ (P.Hash p).length)
    (hsalt : P.Hash (P.Hash p ++ pw) ≠ [])
    (hkdf : P.SecurePassword pw (P.Hash (P.Hash p ++ pw)) (littleEndianU32 (P.Hash p))
      = some sp)
    (hlen : P.AES256_KeySize + P.AES256_IVSize ≤ sp.length)
    (hK : 0 < P.AES256_KeySize) (hI : 0 < P.AES256_IVSize)
    (hobf : P.SecurePassword u (P.Hash (pw ++ P.Hash p)) (rounds n) = some os)
    (hres : resizeForXor m.length os = some obf)
    (hxor : P.XOR m obf ≠ [])
    (henc : P.SymmEncrypt (P.XOR m obf) (sp.take P.AES256_KeySize)
      ((sp.drop P.AES256_KeySize).take P.AES256_IVSize) ≠ []) :
    TmidPacket.new P u p s pw m = .returns ()
      { packet_type := if s then .kStmid else .kTmid,
        name := P.Hash (P.SymmEncrypt (P.XOR m obf) (sp.take P.AES256_KeySize)
          ((sp.drop P.AES256_KeySize).take P.AES256_IVSize)),
        username := u, pin := p, password := pw, rid := P.Hash p,
        plain_text_master_data := m,
        salt := P.Hash (P.Hash p ++ pw),
        secure_key := sp.take P.AES256_KeySize,
        secure_iv := (sp.drop P.AES256_KeySize).take P.AES256_IVSize,
        encrypted_master_data := P.SymmEncrypt (P.XOR m obf) (sp.take P.AES256_KeySize)
          ((sp.drop P.AES256_KeySize).take P.AES256_IVSize),
        obfuscated_master_data := P.XOR m obf,
        obfuscation_salt := P.Hash (pw ++ P.Hash p) } := by
  have hridne : P.Hash p ≠ [] := ne_nil_of_length_pos (by omega)
  have hk : P.AES256_KeySize ≤ sp.length := by omega
  have hkey : sp.take P.AES256_KeySize ≠ [] :=
    ne_nil_of_length_pos (by simp only [List.length_take]; omega)
  have hiv : (sp.drop P.AES256_KeySize).take P.AES256_IVSize ≠ [] :=
    ne_nil_of_length_pos (by simp only [List.length_take, List.length_drop]; omega)
  unfold TmidPacket.new TmidPacket.Initialise
  simp only [isEmpty_eq_false_of_ne hu, isEmpty_eq_false_of_ne hp,
    isEmpty_eq_false_of_ne hridne, Bool.or_self, Bool.false_eq_true, if_false]
  rw [TmidPacket_SetPassword_of_success P _ sp hpw hrid hsalt hkdf hk]
  simp only []
  rw [TmidPacket_ObfuscatePlainData_of_success P _ n os obf hm hu hp hparse hobf hres]
  simp only [TmidPacket.SetPlainData, isEmpty_eq_false_of_ne hxor,
    isEmpty_eq_false_of_ne hkey, isEmpty_eq_false_of_ne hiv, isEmpty_eq_false_of_ne henc,
    Bool.or_self, Bool.false_eq_true, if_false]

/-- What the constructor of `TmidPacket` gives for an empty password: `SetPassword`
rejects it and `Initialise` returns at line 255. -/
theorem TmidPacket_new_of_empty_password (P : Primitives) (u p m : Bytes) (s : Bool)
    (hu : u ≠ []) (hp : p ≠ []) (hrid : P.Hash p ≠ []) :
    TmidPacket.new P u p s [] m = .returns ()
      { packet_type := if s then .kStmid else .kTmid,
        name := [], username := u, pin := p, password := [], rid := P.Hash p,
        plain_text_master_data := m, salt := [], secure_key := [], secure_iv := [],
        encrypted_master_data := [], obfuscated_master_data := [],
        obfuscation_salt := [] } := by
  simp only [TmidPacket.new, TmidPacket.Initialise, TmidPacket.SetPassword,
    isEmpty_eq_false_of_ne hu, isEmpty_eq_false_of_ne hp, isEmpty_eq_false_of_ne hrid,
    Bool.or_self, Bool.false_eq_true, if_false, List.isEmpty_nil, Bool.true_or, if_true]

/-! ### The instance `sample.primitives` has the assumed properties -/

theorem sample_zipWith_xor_length :
    ∀ a b : Bytes, a.length = b.length → (List.zipWith Nat.xor a b).length = a.length
  | [], _, _ => by simp
  | _ :: _, [], h => by simp at h
  | x :: a, y :: b, h => by
    simp only [List.zipWith_cons_cons, List.length_cons, Nat.add_right_cancel_iff]
    exact sample_zipWith_xor_length a b (by simpa using h)

theorem sample_zipWith_xor_cancel :
    ∀ a b : Bytes, a.length = b.length →
      List.zipWith Nat.xor (List.zipWith Nat.xor a b) b = a
  | [], _, _ => by simp
  | _ :: _, [], h => by simp at h
  | x :: a, y :: b, h => by
    simp only [List.zipWith_cons_cons, List.cons.injEq]
    refine ⟨?_, sample_zipWith_xor_cancel a b (by simpa using h)⟩
    exact Nat.xor_cancel_right y x

theorem sample_xorInvolutive : XorInvolutive sample.primitives := by
  intro a b hab
  have hl := sample_zipWith_xor_length a b hab
  have hc := sample_zipWith_xor_cancel a b hab
  have h1 : sample.XOR a b = List.zipWith Nat.xor a b := by
    simp [sample.XOR, hab]
  have h2 : sample.XOR (List.zipWith Nat.xor a b) b = a := by
    simp [sample.XOR, hl, hab, hc]
  show (sample.XOR a b).length = a.length ∧ sample.XOR (sample.XOR a b) b = a
  rw [h1]
  exact ⟨hl, h2⟩

theorem sample_SymmEncrypt_ne_nil (data key iv : Bytes) (hd : data ≠ [])
    (hk : key.length = 32) (hiv : iv.length = 16) :
    sample.SymmEncrypt data key iv ≠ [] := by
  simp [sample.SymmEncrypt, isEmpty_eq_false_of_ne hd, hk, hiv]

theorem sample_symmInverse : SymmInverse sample.primitives := by
  intro data key iv h
  show sample.SymmDecrypt (sample.SymmEncrypt data key iv) key iv = data
  have h0 : sample.SymmEncrypt data key iv ≠ [] := h
  unfold sample.SymmEncrypt at h0 ⊢
  by_cases hc : (data.isEmpty || key.length != 32 || iv.length != 16) = true
  · rw [if_pos hc] at h0
    exact absurd rfl h0
  · rw [if_neg hc]
    simp only [Bool.or_eq_true, not_or, Bool.not_eq_true] at hc
    simp [sample.SymmDecrypt, hc.1.2, hc.2]

/-- `DecryptMasterData` when the password is accepted and `SymmDecrypt` gives an
empty string: line 403 clears the packet, line 406 goes on to
`ClarifyObfuscatedData`, which parses the now empty `pin_`. -/
theorem TmidPacket_DecryptMasterData_of_failed_decryption (P : Primitives)
    (t : TmidPacket) (pw c sp : Bytes)
    (hpw : pw ≠ []) (hrid : 4 ≤ t.rid.length) (hsalt : P.Hash (t.rid ++ pw) ≠ [])
    (hkdf : P.SecurePassword pw (P.Hash (t.rid ++ pw)) (littleEndianU32 t.rid) = some sp)
    (hk : P.AES256_KeySize ≤ sp.length) (hc : c ≠ [])
    (hdec : P.SymmDecrypt c (sp.take P.AES256_KeySize)
      ((sp.drop P.AES256_KeySize).take P.AES256_IVSize) = [])
    (hlex : P.lexical_cast [] = none) :
    TmidPacket.DecryptMasterData P t pw c
      = .throws .bad_lexical_cast (TmidPacket.emptyWith t.packet_type) := by
  unfold TmidPacket.DecryptMasterData
  simp only []
  rw [TmidPacket_SetPassword_of_success P { t with password := pw } sp hpw hrid hsalt hkdf hk]
  simp only [isEmpty_eq_false_of_ne hc, Bool.false_eq_true, if_false, hdec,
    List.isEmpty_nil, if_true, TmidPacket.Clear, TmidPacket.ClarifyObfuscatedData, hlex,
    TmidPacket.emptyWith]

/-- What the constructor of `MidPacket` gives when every step succeeds. -/
theorem MidPacket_new_of_success (P : Primitives) (u p a sp : Bytes) (n : Nat)
    (hu : u ≠ []) (hp : p ≠ []) (hparse : P.lexical_cast p = some n)
    (hkdf : P.SecurePassword u (P.Hash (p ++ u)) n = some sp)
    (hlen : P.AES256_KeySize + P.AES256_IVSize ≤ sp.length)
    (hname : P.Hash (u ++ p ++ a) ≠ []) :
    MidPacket.new P u p a = .returns ()
      { packet_type := if a.isEmpty then .kMid else .kSmid,
        name := P.Hash (u ++ p ++ a), username := u, pin := p, smid_appendix := a,
        rid := [], encrypted_rid := [], salt := P.Hash (p ++ u),
        secure_key := sp.take P.AES256_KeySize,
        secure_iv := (sp.drop P.AES256_KeySize).take P.AES256_IVSize } := by
  have hk : P.AES256_KeySize ≤ sp.length := by omega
  simp only [MidPacket.new, MidPacket.Initialise, isEmpty_eq_false_of_ne hu,
    isEmpty_eq_false_of_ne hp, Bool.or_self, Bool.false_eq_true, if_false, hparse, hkdf,
    substr_zero, substr_of_le _ _ _ hk, GetMidName, isEmpty_eq_false_of_ne hname]

/-! ## MidPacket: construction -/

/-- C6. For a non-empty username `u`, a non-empty PIN string `p` that parses as `n`
and an appendix `a`, if `SecurePassword(u, H(p ‖ u), n)` succeeds with at least
`key_size + iv_size` bytes `sp` (and the digest `H(u ‖ p ‖ a)` is not empty), the
constructor returns the packet with `name = H(u ‖ p ‖ a)`, `salt = H(p ‖ u)`,
`secure_key` the first `key_size` bytes of `sp`, `secure_iv` the following
`iv_size` bytes, `rid` and `encrypted_rid` empty, and `username`, `pin`,
`smid_appendix` as given. -/
theorem MidPacket_new_postcondition (P : Primitives) (u p a sp : Bytes) (n : Nat)
    (hu : u ≠ []) (hp : p ≠ []) (hparse : P.lexical_cast p = some n)
    (hkdf : P.SecurePassword u (P.Hash (p ++ u)) n = some sp)
    (hlen : P.AES256_KeySize + P.AES256_IVSize ≤ sp.length)
    (hname : P.Hash (u ++ p ++ a) ≠ []) :
    MidPacket.new P u p a = .returns ()
      { packet_type := if a.isEmpty then .kMid else .kSmid,
        name := P.Hash (u ++ p ++ a), username := u, pin := p, smid_appendix := a,
        rid := [], encrypted_rid := [], salt := P.Hash (p ++ u),
        secure_key := sp.take P.AES256_KeySize,
        secure_iv := (sp.drop P.AES256_KeySize).take P.AES256_IVSize } :=
  MidPacket_new_of_success P u p a sp n hu hp hparse hkdf hlen hname

set_option maxRecDepth 100000 in
/-- C6 at `sample.primitives`, username "u", PIN "1", no appendix. -/
theorem MidPacket_new_postcondition_witness :
    sample.primitives.lexical_cast [49] = some 1 ∧
    sample.primitives.SecurePassword [117] (sample.primitives.Hash ([49] ++ [117])) 1
      = some (sample.stream 117) ∧
    MidPacket.new sample.primitives [117] [49] [] = .returns ()
      { packet_type := if ([] : Bytes).isEmpty then .kMid else .kSmid,
        name := sample.primitives.Hash ([117] ++ [49] ++ []),
        username := [117], pin := [49], smid_appendix := [],
        rid := [], encrypted_rid := [], salt := sample.primitives.Hash ([49] ++ [117]),
        secure_key :=
          (sample.stream 117).take
            sample.primitives.AES256_KeySize,
        secure_iv :=
          ((sample.stream 117).drop
            sample.primitives.AES256_KeySize).take sample.primitives.AES256_IVSize } :=
  ⟨by decide, by decide,
   MidPacket_new_postcondition sample.primitives [117] [49] []
    (sample.stream 117) 1
    (by decide) (by decide) (by decide) (by decide) (by decide) (by decide)⟩

/-- C7. When the username is empty, or the PIN is empty, or the PIN does not parse,
or the PIN parses as `n` and `SecurePassword(username, H(pin ‖ username), n)`
fails, the constructor returns (it does not throw) a packet in which `name`,
`username`, `pin`, `smid_appendix`, `rid`, `encrypted_rid`, `salt`, `secure_key`
and `secure_iv` are all empty. -/
theorem MidPacket_new_quiet_failure (P : Primitives) (username pin smid_appendix : Bytes)
    (h : username = [] ∨ pin = [] ∨ P.lexical_cast pin = none ∨
      ∃ n, P.lexical_cast pin = some n ∧
        P.SecurePassword username (P.Hash (pin ++ username)) n = none) :
    MidPacket.new P username pin smid_appendix = .returns ()
      { packet_type := if smid_appendix.isEmpty then .kMid else .kSmid,
        name := [], username := [], pin := [], smid_appendix := [],
        rid := [], encrypted_rid := [], salt := [], secure_key := [], secure_iv := [] } := by
  unfold MidPacket.new MidPacket.Initialise
  by_cases he : (username.isEmpty || pin.isEmpty) = true
  · simp only [he, if_true, MidPacket.Clear]
  · simp only [he, Bool.false_eq_true, if_false]
    rcases h with h | h | h | ⟨n, h1, h2⟩
    · subst h; simp at he
    · subst h; simp at he
    · simp only [h, MidPacket.Clear]
    · simp only [h1, h2, MidPacket.Clear]

set_option maxRecDepth 100000 in
/-- C7 at `sample.primitives`: the PIN "a" does not parse. -/
theorem MidPacket_new_quiet_failure_witness :
    sample.primitives.lexical_cast [97] = none ∧
    MidPacket.new sample.primitives [117] [97] [83] = .returns ()
      { packet_type := if ([83] : Bytes).isEmpty then .kMid else .kSmid,
        name := [], username := [], pin := [], smid_appendix := [],
        rid := [], encrypted_rid := [], salt := [], secure_key := [], secure_iv := [] } :=
  ⟨by decide,
   MidPacket_new_quiet_failure sample.primitives [117] [97] [83]
    (Or.inr (Or.inr (Or.inl (by decide))))⟩

/-! ## MidPacket: round trip of the rid -/

/-- C2. For a non-empty username `u`, a non-empty PIN `p` that parses as `n`, an
appendix `a` and a non-empty `r`, when `SecurePassword` succeeds with at least
`key_size + iv_size` bytes, `SymmEncrypt(r, key, iv)` is not empty and
`SymmDecrypt` gives `r` back from it under the same key and IV: the constructor
returns a packet `m`, and with `m1` the state after `m.SetRid(r)`, the call
`m1.DecryptRid(m1.encrypted_rid)` returns `r` and leaves the state `m1`, in which
`rid = r` and `encrypted_rid = SymmEncrypt(r, key, iv)`. -/
theorem MidPacket_rid_round_trip (P : Primitives) (u p a r sp : Bytes) (n : Nat)
    (hu : u ≠ []) (hp : p ≠ []) (hparse : P.lexical_cast p = some n)
    (hkdf : P.SecurePassword u (P.Hash (p ++ u)) n = some sp)
    (hlen : P.AES256_KeySize + P.AES256_IVSize ≤ sp.length)
    (hname : P.Hash (u ++ p ++ a) ≠ [])
    (hr : r ≠ [])
    (henc : P.SymmEncrypt r (sp.take P.AES256_KeySize)
      ((sp.drop P.AES256_KeySize).take P.AES256_IVSize) ≠ [])
    (hdec : P.SymmDecrypt
      (P.SymmEncrypt r (sp.take P.AES256_KeySize)
        ((sp.drop P.AES256_KeySize).take P.AES256_IVSize))
      (sp.take P.AES256_KeySize) ((sp.drop P.AES256_KeySize).take P.AES256_IVSize) = r) :
    ∃ m, MidPacket.new P u p a = .returns () m ∧
      (MidPacket.SetRid P m r).rid = r ∧
      (MidPacket.SetRid P m r).encrypted_rid =
        P.SymmEncrypt r (sp.take P.AES256_KeySize)
          ((sp.drop P.AES256_KeySize).take P.AES256_IVSize) ∧
      MidPacket.DecryptRid P (MidPacket.SetRid P m r) (MidPacket.SetRid P m r).encrypted_rid
        = (r, MidPacket.SetRid P m r) := by
  refine ⟨_, MidPacket_new_of_success P u p a sp n hu hp hparse hkdf hlen hname, ?_⟩
  have hset : MidPacket.SetRid P
      { packet_type := if a.isEmpty then .kMid else .kSmid,
        name := P.Hash (u ++ p ++ a), username := u, pin := p, smid_appendix := a,
        rid := [], encrypted_rid := [], salt := P.Hash (p ++ u),
        secure_key := sp.take P.AES256_KeySize,
        secure_iv := (sp.drop P.AES256_KeySize).take P.AES256_IVSize } r =
      { packet_type := if a.isEmpty then .kMid else .kSmid,
        name := P.Hash (u ++ p ++ a), username := u, pin := p, smid_appendix := a,
        rid := r,
        encrypted_rid := P.SymmEncrypt r (sp.take P.AES256_KeySize)
          ((sp.drop P.AES256_KeySize).take P.AES256_IVSize),
        salt := P.Hash (p ++ u),
        secure_key := sp.take P.AES256_KeySize,
        secure_iv := (sp.drop P.AES256_KeySize).take P.AES256_IVSize } := by
    simp only [MidPacket.SetRid, isEmpty_eq_false_of_ne hr, isEmpty_eq_false_of_ne henc,
      Bool.false_eq_true, if_false]
  rw [hset]
  refine ⟨rfl, rfl, ?_⟩
  simp only [MidPacket.DecryptRid, isEmpty_eq_false_of_ne hu, isEmpty_eq_false_of_ne hp,
    isEmpty_eq_false_of_ne henc, Bool.or_self, Bool.false_eq_true, if_false, hdec,
    isEmpty_eq_false_of_ne hr]

set_option maxRecDepth 100000 in
/-- C2 at `sample.primitives`: username "u", PIN "1", no appendix, rid "R". -/
theorem MidPacket_rid_round_trip_witness :
    sample.primitives.lexical_cast [49] = some 1 ∧
    ∃ m, MidPacket.new sample.primitives [117] [49] [] = .returns () m ∧
      (MidPacket.SetRid sample.primitives m [82]).rid = [82] ∧
      (MidPacket.SetRid sample.primitives m [82]).encrypted_rid =
        sample.primitives.SymmEncrypt [82]
          ((sample.stream 117).take
            sample.primitives.AES256_KeySize)
          (((sample.stream 117).drop
            sample.primitives.AES256_KeySize).take sample.primitives.AES256_IVSize) ∧
      MidPacket.DecryptRid sample.primitives (MidPacket.SetRid sample.primitives m [82])
          (MidPacket.SetRid sample.primitives m [82]).encrypted_rid
        = ([82], MidPacket.SetRid sample.primitives m [82]) :=
  ⟨by decide,
   MidPacket_rid_round_trip sample.primitives [117] [49] [] [82]
    (sample.stream 117) 1
    (by decide) (by decide) (by decide) (by decide) (by decide) (by decide)
    (by decide) (by decide) (by decide)⟩

/-! ## TmidPacket: construction and round trip -/

/-- C8. For a non-empty username `u`, a non-empty PIN `p` that parses as `n`, a
non-empty password `pw` and non-empty master data `m`, when the digests used are
not empty (`H(p)` has at least 4 bytes), the password derivation
`SecurePassword(pw, H(H(p) ‖ pw), little-endian u32 of H(p)[0..3])` succeeds with
at least `key_size + iv_size` bytes `sp`, the obfuscation derivation
`SecurePassword(u, H(pw ‖ H(p)), rounds n)` succeeds with a non-empty `os`, `XOR`
keeps the length of equal-length operands and `SymmEncrypt` under the derived key
and IV does not give an empty result on non-empty data: the doubling loop exits
with a string `obf` of the length of `m`, and the constructor returns the packet
with `rid = H(p)`, `salt = H(rid ‖ pw)`, `secure_key` and `secure_iv` the
`key_size` / `iv_size` split of `sp`, `obfuscation_salt = H(pw ‖ rid)`,
`obfuscated_master_data = XOR(m, obf)`,
`encrypted_master_data = SymmEncrypt(obfuscated_master_data, secure_key, secure_iv)`
and `name = H(encrypted_master_data)`. -/
theorem TmidPacket_new_postcondition (P : Primitives) (u p pw m sp os : Bytes) (n : Nat)
    (s : Bool)
    (hu : u ≠ []) (hp : p ≠ []) (hparse : P.lexical_cast p = some n)
    (hpw : pw ≠ []) (hm : m ≠ [])
    (hrid : 4 ≤ (P.Hash p).length)
    (hsalt : P.Hash (P.Hash p ++ pw) ≠ [])
    (hkdf : P.SecurePassword pw (P.Hash (P.Hash p ++ pw)) (littleEndianU32 (P.Hash p))
      = some sp)
    (hlen : P.AES256_KeySize + P.AES256_IVSize ≤ sp.length)
    (hK : 0 < P.AES256_KeySize) (hI : 0 < P.AES256_IVSize)
    (hobf : P.SecurePassword u (P.Hash (pw ++ P.Hash p)) (rounds n) = some os)
    (hos : os ≠ [])
    (hxor : XorInvolutive P)
    (henc : ∀ d : Bytes, d ≠ [] → P.SymmEncrypt d (sp.take P.AES256_KeySize)
      ((sp.drop P.AES256_KeySize).take P.AES256_IVSize) ≠ []) :
    ∃ obf, resizeForXor m.length os = some obf ∧ obf.length = m.length ∧
      TmidPacket.new P u p s pw m = .returns ()
        { packet_type := if s then .kStmid else .kTmid,
          name := P.Hash (P.SymmEncrypt (P.XOR m obf) (sp.take P.AES256_KeySize)
            ((sp.drop P.AES256_KeySize).take P.AES256_IVSize)),
          username := u, pin := p, password := pw, rid := P.Hash p,
          plain_text_master_data := m,
          salt := P.Hash (P.Hash p ++ pw),
          secure_key := sp.take P.AES256_KeySize,
          secure_iv := (sp.drop P.AES256_KeySize).take P.AES256_IVSize,
          encrypted_master_data := P.SymmEncrypt (P.XOR m obf) (sp.take P.AES256_KeySize)
            ((sp.drop P.AES256_KeySize).take P.AES256_IVSize),
          obfuscated_master_data := P.XOR m obf,
          obfuscation_salt := P.Hash (pw ++ P.Hash p) } := by
  obtain ⟨obf, hres, hlenobf⟩ := resizeForXor_some m.length os hos
  have hmpos : 0 < m.length := List.length_pos.mpr hm
  have hx : P.XOR m obf ≠ [] :=
    ne_nil_of_length_pos (by rw [(hxor m obf hlenobf.symm).1]; exact hmpos)
  exact ⟨obf, hres, hlenobf,
    TmidPacket_new_of_success P u p pw m sp os obf n s hu hp hparse hpw hm hrid hsalt hkdf
      hlen hK hI hobf hres hx (henc _ hx)⟩

set_option maxRecDepth 100000 in
/-- C8 at `sample.primitives`: username "u", PIN "1", password "p", data "MNO". -/
theorem TmidPacket_new_postcondition_witness :
    sample.primitives.lexical_cast [49] = some 1 ∧
    sample.primitives.SecurePassword [112]
      (sample.primitives.Hash (sample.primitives.Hash [49] ++ [112]))
      (littleEndianU32 (sample.primitives.Hash [49])) = some (sample.stream 319951227) ∧
    sample.primitives.SecurePassword [117]
      (sample.primitives.Hash ([112] ++ sample.primitives.Hash [49])) (rounds 1)
      = some (sample.stream 85) ∧
    ∃ t, TmidPacket.new sample.primitives [117] [49] false [112] [77, 78, 79]
        = .returns () t ∧
      t.rid = sample.primitives.Hash [49] ∧
      t.salt = sample.primitives.Hash (t.rid ++ [112]) ∧
      t.obfuscation_salt = sample.primitives.Hash ([112] ++ t.rid) ∧
      t.encrypted_master_data =
        sample.primitives.SymmEncrypt t.obfuscated_master_data t.secure_key t.secure_iv ∧
      t.name = sample.primitives.Hash t.encrypted_master_data := by
  obtain ⟨obf, _, _, h⟩ :=
    TmidPacket_new_postcondition sample.primitives [117] [49] [112] [77, 78, 79]
      (sample.stream 319951227) (sample.stream 85) 1 false
      (by decide) (by decide) (by decide) (by decide) (by decide) (by decide) (by decide)
      (by decide) (by decide) (by decide) (by decide) (by decide) (by decide)
      sample_xorInvolutive
      (fun d hd => sample_SymmEncrypt_ne_nil d _ _ hd (by decide) (by decide))
  exact ⟨by decide, by decide, by decide, _, h, rfl, rfl, rfl, rfl, rfl⟩

/-- C1. Under the conditions of C8, and when `SymmDecrypt` inverts a successful
`SymmEncrypt` under the same key and IV and `XOR` with an equal-length string is
an involution: `TmidPacket(u, p, s, pw, m)` returns a packet `t`, the sibling
`TmidPacket(u, p, s, "", "")` returns a packet `t'`, and
`t'.DecryptMasterData(pw, t.encrypted_master_data)` returns exactly `m`. -/
theorem TmidPacket_round_trip (P : Primitives) (u p pw m sp os : Bytes) (n : Nat)
    (s : Bool)
    (hu : u ≠ []) (hp : p ≠ []) (hparse : P.lexical_cast p = some n)
    (hpw : pw ≠ []) (hm : m ≠ [])
    (hrid : 4 ≤ (P.Hash p).length)
    (hsalt : P.Hash (P.Hash p ++ pw) ≠ [])
    (hkdf : P.SecurePassword pw (P.Hash (P.Hash p ++ pw)) (littleEndianU32 (P.Hash p))
      = some sp)
    (hlen : P.AES256_KeySize + P.AES256_IVSize ≤ sp.length)
    (hK : 0 < P.AES256_KeySize) (hI : 0 < P.AES256_IVSize)
    (hobf : P.SecurePassword u (P.Hash (pw ++ P.Hash p)) (rounds n) = some os)
    (hos : os ≠ [])
    (hxor : XorInvolutive P)
    (henc : ∀ d : Bytes, d ≠ [] → P.SymmEncrypt d (sp.take P.AES256_KeySize)
      ((sp.drop P.AES256_KeySize).take P.AES256_IVSize) ≠ [])
    (hinv : SymmInverse P) :
    ∃ t t' st, TmidPacket.new P u p s pw m = .returns () t ∧
      TmidPacket.new P u p s [] [] = .returns () t' ∧
      TmidPacket.DecryptMasterData P t' pw t.encrypted_master_data = .returns m st := by
  obtain ⟨obf, hres, hlenobf⟩ := resizeForXor_some m.length os hos
  have hmpos : 0 < m.length := List.length_pos.mpr hm
  have hxl : (P.XOR m obf).length = m.length := (hxor m obf hlenobf.symm).1
  have hxi : P.XOR (P.XOR m obf) obf = m := (hxor m obf hlenobf.symm).2
  have hx : P.XOR m obf ≠ [] := ne_nil_of_length_pos (by rw [hxl]; exact hmpos)
  have hridne : P.Hash p ≠ [] := ne_nil_of_length_pos (by omega)
  have hk : P.AES256_KeySize ≤ sp.length := by omega
  have hE := henc _ hx
  have hD := hinv _ _ _ hE
  have hdecrypt : ∃ st, TmidPacket.DecryptMasterData P
      { packet_type := if s then .kStmid else .kTmid,
        name := [], username := u, pin := p, password := [], rid := P.Hash p,
        plain_text_master_data := [], salt := [], secure_key := [], secure_iv := [],
        encrypted_master_data := [], obfuscated_master_data := [],
        obfuscation_salt := [] } pw
      (P.SymmEncrypt (P.XOR m obf) (sp.take P.AES256_KeySize)
        ((sp.drop P.AES256_KeySize).take P.AES256_IVSize)) = .returns m st := by
    unfold TmidPacket.DecryptMasterData
    simp only []
    rw [TmidPacket_SetPassword_of_success P _ sp hpw hrid hsalt hkdf hk]
    simp only [isEmpty_eq_false_of_ne hE, Bool.false_eq_true, if_false, hD,
      isEmpty_eq_false_of_ne hx]
    rw [TmidPacket_ClarifyObfuscatedData_of_success P _ n os obf hparse hobf
      (by simp only [hxl]; exact hres)]
    simp only [hxi]
    exact ⟨_, rfl⟩
  obtain ⟨st, hst⟩ := hdecrypt
  exact ⟨_, _, st,
    TmidPacket_new_of_success P u p pw m sp os obf n s hu hp hparse hpw hm hrid hsalt hkdf
      hlen hK hI hobf hres hx hE,
    TmidPacket_new_of_empty_password P u p [] s hu hp hridne, hst⟩

set_option maxRecDepth 100000 in
/-- C1 at `sample.primitives`: username "u", PIN "1", password "p", data "MNO". -/
theorem TmidPacket_round_trip_witness :
    sample.primitives.lexical_cast [49] = some 1 ∧
    ∃ t t' st,
      TmidPacket.new sample.primitives [117] [49] false [112] [77, 78, 79]
        = .returns () t ∧
      TmidPacket.new sample.primitives [117] [49] false [] [] = .returns () t' ∧
      TmidPacket.DecryptMasterData sample.primitives t' [112] t.encrypted_master_data
        = .returns [77, 78, 79] st :=
  ⟨by decide,
   TmidPacket_round_trip sample.primitives [117] [49] [112] [77, 78, 79]
    (sample.stream 319951227) (sample.stream 85) 1 false
    (by decide) (by decide) (by decide) (by decide) (by decide) (by decide) (by decide)
    (by decide) (by decide) (by decide) (by decide) (by decide) (by decide)
    sample_xorInvolutive
    (fun d hd => sample_SymmEncrypt_ne_nil d _ _ hd (by decide) (by decide))
    sample_symmInverse⟩

/-! ## TmidPacket: failing construction -/

set_option maxRecDepth 100000 in
/-- C9, counterexample. With username "u" and PIN "1": for an empty password (and
data "M") the constructor returns a packet that still holds the username, the
PIN, `rid = H(pin)` and the master data; for password "p" and empty master data
it returns a packet that still holds username, PIN, password, `rid` and the
derived salt, key and IV. Neither packet is empty. -/
theorem TmidPacket_new_failure_keeps_fields :
    (∃ t, TmidPacket.new sample.primitives [117] [49] false [] [77] = .returns () t ∧
      t ≠ TmidPacket.emptyWith .kTmid ∧ t.username = [117] ∧ t.pin = [49] ∧
      t.rid = sample.Hash [49] ∧ t.plain_text_master_data = [77]) ∧
    (∃ t, TmidPacket.new sample.primitives [117] [49] false [112] [] = .returns () t ∧
      t ≠ TmidPacket.emptyWith .kTmid ∧ t.username = [117] ∧ t.pin = [49] ∧
      t.password = [112] ∧ t.rid = sample.Hash [49] ∧
      t.secure_key = (sample.stream 319951227).take 32) :=
  ⟨⟨{ packet_type := .kTmid, name := [], username := [117], pin := [49], password := [],
      rid := sample.Hash [49], plain_text_master_data := [77], salt := [],
      secure_key := [], secure_iv := [], encrypted_master_data := [],
      obfuscated_master_data := [], obfuscation_salt := [] },
    by decide, by decide, rfl, rfl, rfl, rfl⟩,
   ⟨{ packet_type := .kTmid, name := [], username := [117], pin := [49],
      password := [112], rid := sample.Hash [49], plain_text_master_data := [],
      salt := sample.Hash (sample.Hash [49] ++ [112]),
      secure_key := (sample.stream 319951227).take 32,
      secure_iv := ((sample.stream 319951227).drop 32).take 16,
      encrypted_master_data := [], obfuscated_master_data := [], obfuscation_salt := [] },
    by decide, by decide, rfl, rfl, rfl, rfl, rfl⟩⟩

/-- C9, amended. For every input of the constructor of `TmidPacket`:
(a) with an empty username, an empty PIN or an empty `H(pin)` the packet is empty;
(b) with an empty password (username, PIN and `H(pin)` not empty) the packet keeps
    `username`, `pin`, `rid = H(pin)` and `plain_text_master_data`, and every other
    string member is empty;
(c) with a non-empty password and a `rid` of at least 4 bytes, when the salt
    `H(rid ‖ password)` is empty or the password derivation fails, the packet is
    empty;
(d) when the password derivation succeeds with at least `key_size` bytes and the
    master data is empty, the packet keeps `username`, `pin`, `password`, `rid`
    and the derived `salt`, `secure_key`, `secure_iv`, and `name`,
    `plain_text_master_data`, `encrypted_master_data`, `obfuscated_master_data`
    and `obfuscation_salt` are empty;
(e) when both derivations succeed, the obfuscated data, the key and the IV are not
    empty and `SymmEncrypt` gives an empty result, the packet is empty. -/
theorem TmidPacket_new_failure (P : Primitives) (u p pw m : Bytes) (s : Bool) :
    ((u = [] ∨ p = [] ∨ P.Hash p = []) →
      TmidPacket.new P u p s pw m
        = .returns () (TmidPacket.emptyWith (if s then .kStmid else .kTmid))) ∧
    (u ≠ [] → p ≠ [] → P.Hash p ≠ [] → pw = [] →
      TmidPacket.new P u p s pw m = .returns ()
        { packet_type := if s then .kStmid else .kTmid,
          name := [], username := u, pin := p, password := [], rid := P.Hash p,
          plain_text_master_data := m, salt := [], secure_key := [], secure_iv := [],
          encrypted_master_data := [], obfuscated_master_data := [],
          obfuscation_salt := [] }) ∧
    (u ≠ [] → p ≠ [] → pw ≠ [] → 4 ≤ (P.Hash p).length →
      (P.Hash (P.Hash p ++ pw) = [] ∨
        P.SecurePassword pw (P.Hash (P.Hash p ++ pw)) (littleEndianU32 (P.Hash p)) = none) →
      TmidPacket.new P u p s pw m
        = .returns () (TmidPacket.emptyWith (if s then .kStmid else .kTmid))) ∧
    (∀ sp : Bytes, u ≠ [] → p ≠ [] → pw ≠ [] → 4 ≤ (P.Hash p).length →
      P.Hash (P.Hash p ++ pw) ≠ [] →
      P.SecurePassword pw (P.Hash (P.Hash p ++ pw)) (littleEndianU32 (P.Hash p)) = some sp →
      P.AES256_KeySize ≤ sp.length → m = [] →
      TmidPacket.new P u p s pw m = .returns ()
        { packet_type := if s then .kStmid else .kTmid,
          name := [], username := u, pin := p, password := pw, rid := P.Hash p,
          plain_text_master_data := [],
          salt := P.Hash (P.Hash p ++ pw),
          secure_key := sp.take P.AES256_KeySize,
          secure_iv := (sp.drop P.AES256_KeySize).take P.AES256_IVSize,
          encrypted_master_data := [], obfuscated_master_data := [],
          obfuscation_salt := [] }) ∧
    (∀ (sp os obf : Bytes) (n : Nat), u ≠ [] → p ≠ [] → pw ≠ [] → m ≠ [] →
      4 ≤ (P.Hash p).length → P.Hash (P.Hash p ++ pw) ≠ [] →
      P.SecurePassword pw (P.Hash (P.Hash p ++ pw)) (littleEndianU32 (P.Hash p)) = some sp →
      P.AES256_KeySize ≤ sp.length →
      P.lexical_cast p = some n →
      P.SecurePassword u (P.Hash (pw ++ P.Hash p)) (rounds n) = some os →
      resizeForXor m.length os = some obf →
      P.XOR m obf ≠ [] → sp.take P.AES256_KeySize ≠ [] →
      (sp.drop P.AES256_KeySize).take P.AES256_IVSize ≠ [] →
      P.SymmEncrypt (P.XOR m obf) (sp.take P.AES256_KeySize)
        ((sp.drop P.AES256_KeySize).take P.AES256_IVSize) = [] →
      TmidPacket.new P u p s pw m
        = .returns () (TmidPacket.emptyWith (if s then .kStmid else .kTmid))) := by
  refine ⟨?_, ?_, ?_, ?_, ?_⟩
  · intro h
    have hc : (u.isEmpty || p.isEmpty || (P.Hash p).isEmpty) = true := by
      rcases h with h | h | h <;> simp [h]
    simp only [TmidPacket.new, TmidPacket.Initialise, hc, if_true, TmidPacket.Clear,
      TmidPacket.emptyWith]
  · intro hu hp hrid hpw
    subst hpw
    exact TmidPacket_new_of_empty_password P u p m s hu hp hrid
  · intro hu hp hpw hrid hfail
    have hridne : P.Hash p ≠ [] := ne_nil_of_length_pos (by omega)
    have h4 : ¬ (P.Hash p).length < 4 := by omega
    rcases hfail with hsalt | hkdf
    · simp only [TmidPacket.new, TmidPacket.Initialise, TmidPacket.SetPassword,
        isEmpty_eq_false_of_ne hu, isEmpty_eq_false_of_ne hp, isEmpty_eq_false_of_ne hridne,
        isEmpty_eq_false_of_ne hpw, h4, decide_False, Bool.or_self, Bool.false_eq_true,
        if_false, hsalt, List.isEmpty_nil, if_true, TmidPacket.Clear, TmidPacket.emptyWith]
    · by_cases hsalt : P.Hash (P.Hash p ++ pw) = []
      · simp only [TmidPacket.new, TmidPacket.Initialise, TmidPacket.SetPassword,
          isEmpty_eq_false_of_ne hu, isEmpty_eq_false_of_ne hp,
          isEmpty_eq_false_of_ne hridne, isEmpty_eq_false_of_ne hpw, h4, decide_False,
          Bool.or_self, Bool.false_eq_true, if_false, hsalt, List.isEmpty_nil, if_true,
          TmidPacket.Clear, TmidPacket.emptyWith]
      · simp only [TmidPacket.new, TmidPacket.Initialise, TmidPacket.SetPassword,
          isEmpty_eq_false_of_ne hu, isEmpty_eq_false_of_ne hp,
          isEmpty_eq_false_of_ne hridne, isEmpty_eq_false_of_ne hpw, h4, decide_False,
          Bool.or_self, Bool.false_eq_true, if_false, isEmpty_eq_false_of_ne hsalt,
          random_no_from_rid_eq _ hrid, hkdf, TmidPacket.Clear, TmidPacket.emptyWith]
  · intro sp hu hp hpw hrid hsalt hkdf hk hm
    subst hm
    have hridne : P.Hash p ≠ [] := ne_nil_of_length_pos (by omega)
    unfold TmidPacket.new TmidPacket.Initialise
    simp only [isEmpty_eq_false_of_ne hu, isEmpty_eq_false_of_ne hp,
      isEmpty_eq_false_of_ne hridne, Bool.or_self, Bool.false_eq_true, if_false]
    rw [TmidPacket_SetPassword_of_success P _ sp hpw hrid hsalt hkdf hk]
    simp only [TmidPacket.ObfuscatePlainData, List.isEmpty_nil, Bool.true_or, if_true]
  · intro sp os obf n hu hp hpw hm hrid hsalt hkdf hk hparse hobf hres hx hkey hiv henc
    have hridne : P.Hash p ≠ [] := ne_nil_of_length_pos (by omega)
    unfold TmidPacket.new TmidPacket.Initialise
    simp only [isEmpty_eq_false_of_ne hu, isEmpty_eq_false_of_ne hp,
      isEmpty_eq_false_of_ne hridne, Bool.or_self, Bool.false_eq_true, if_false]
    rw [TmidPacket_SetPassword_of_success P _ sp hpw hrid hsalt hkdf hk]
    simp only []
    rw [TmidPacket_ObfuscatePlainData_of_success P _ n os obf hm hu hp hparse hobf hres]
    simp only [TmidPacket.SetPlainData, isEmpty_eq_false_of_ne hx,
      isEmpty_eq_false_of_ne hkey, isEmpty_eq_false_of_ne hiv, Bool.or_self,
      Bool.false_eq_true, if_false, henc, List.isEmpty_nil, if_true, TmidPacket.Clear,
      TmidPacket.emptyWith]

set_option maxRecDepth 100000 in
/-- C9 (amended) on concrete inputs, one for each of its five parts: an empty
username; an empty password; a failing key derivation (`sample.noKdf`); empty
master data; a failing encryption (`sample.noCipher`). -/
theorem TmidPacket_new_failure_witness :
    TmidPacket.new sample.primitives [] [49] false [112] [77]
      = .returns () (TmidPacket.emptyWith .kTmid) ∧
    TmidPacket.new sample.primitives [117] [49] false [] [77] = .returns ()
      { packet_type := .kTmid,
        name := [], username := [117], pin := [49], password := [],
        rid := sample.Hash [49], plain_text_master_data := [77], salt := [],
        secure_key := [], secure_iv := [], encrypted_master_data := [],
        obfuscated_master_data := [], obfuscation_salt := [] } ∧
    TmidPacket.new sample.noKdf [117] [49] true [112] [77]
      = .returns () (TmidPacket.emptyWith .kStmid) ∧
    TmidPacket.new sample.primitives [117] [49] false [112] [] = .returns ()
      { packet_type := .kTmid,
        name := [], username := [117], pin := [49], password := [112],
        rid := sample.Hash [49], plain_text_master_data := [],
        salt := sample.Hash (sample.Hash [49] ++ [112]),
        secure_key := (sample.stream 319951227).take 32,
        secure_iv := ((sample.stream 319951227).drop 32).take 16,
        encrypted_master_data := [], obfuscated_master_data := [],
        obfuscation_salt := [] } ∧
    TmidPacket.new sample.noCipher [117] [49] false [112] [77, 78, 79]
      = .returns () (TmidPacket.emptyWith .kTmid) :=
  ⟨(TmidPacket_new_failure sample.primitives [] [49] [112] [77] false).1 (Or.inl rfl),
   (TmidPacket_new_failure sample.primitives [117] [49] [] [77] false).2.1
      (by decide) (by decide) (by decide) rfl,
   (TmidPacket_new_failure sample.noKdf [117] [49] [112] [77] true).2.2.1
      (by decide) (by decide) (by decide) (by decide) (Or.inr rfl),
   (TmidPacket_new_failure sample.primitives [117] [49] [112] [] false).2.2.2.1
      (sample.stream 319951227)
      (by decide) (by decide) (by decide) (by decide) (by decide) (by decide) (by decide) rfl,
   (TmidPacket_new_failure sample.noCipher [117] [49] [112] [77, 78, 79] false).2.2.2.2
      (sample.stream 319951227) (sample.stream 85) [85, 86, 87] 1
      (by decide) (by decide) (by decide) (by decide) (by decide) (by decide) (by decide)
      (by decide) (by decide) (by decide) (by decide) (by decide) (by decide) (by decide)
      rfl⟩

/-! ## TmidPacket: recovery with a wrong password -/

set_option maxRecDepth 100000 in
/-- C10, the code at a failing input. `t` is `TmidPacket("u", "1", false, "p", "MNO")`
and `t'` the sibling `TmidPacket("u", "1", false, "", "")`, which holds a non-empty
username and the parseable PIN "1". `t'.DecryptMasterData("q", t.encrypted_master_data)`
uses the wrong password "q": decryption gives the empty string, the packet is
cleared, and the call then throws `bad_lexical_cast` instead of returning the
empty value (with the right password "p" it returns "MNO"). -/
theorem TmidPacket_DecryptMasterData_wrong_password_throws :
    ∃ t t' st,
      TmidPacket.new sample.primitives [117] [49] false [112] [77, 78, 79]
        = .returns () t ∧
      TmidPacket.new sample.primitives [117] [49] false [] [] = .returns () t' ∧
      t'.username = [117] ∧ t'.pin = [49] ∧ sample.primitives.lexical_cast t'.pin = some 1 ∧
      t.encrypted_master_data ≠ [] ∧
      TmidPacket.DecryptMasterData sample.primitives t' [112] t.encrypted_master_data
        = .returns [77, 78, 79] st ∧
      TmidPacket.DecryptMasterData sample.primitives t' [113] t.encrypted_master_data
        = .throws .bad_lexical_cast (TmidPacket.emptyWith .kTmid) :=
  ⟨{ packet_type := .kTmid, name := sample.Hash [166, 24, 24, 24], username := [117],
     pin := [49], password := [112], rid := sample.Hash [49],
     plain_text_master_data := [77, 78, 79],
     salt := sample.Hash (sample.Hash [49] ++ [112]),
     secure_key := (sample.stream 319951227).take 32,
     secure_iv := ((sample.stream 319951227).drop 32).take 16,
     encrypted_master_data := [166, 24, 24, 24], obfuscated_master_data := [24, 24, 24],
     obfuscation_salt := sample.Hash ([112] ++ sample.Hash [49]) },
   { packet_type := .kTmid, name := [], username := [117], pin := [49], password := [],
     rid := sample.Hash [49], plain_text_master_data := [], salt := [],
     secure_key := [], secure_iv := [], encrypted_master_data := [],
     obfuscated_master_data := [], obfuscation_salt := [] },
   { packet_type := .kTmid, name := [], username := [117], pin := [49],
     password := [112], rid := sample.Hash [49],
     plain_text_master_data := [77, 78, 79],
     salt := sample.Hash (sample.Hash [49] ++ [112]),
     secure_key := (sample.stream 319951227).take 32,
     secure_iv := ((sample.stream 319951227).drop 32).take 16,
     encrypted_master_data := [166, 24, 24, 24], obfuscated_master_data := [24, 24, 24],
     obfuscation_salt := [] },
   by decide, by decide, rfl, rfl, by decide, by decide, by decide, by decide⟩

/-! ## Fobs: encoding and decoding -/

/-- C3. For every tag value `kValue` (a 32-bit value) and every fob `f` such that:
for a tag other than Mpid `name = H(encode(public_key) ‖ validation_token)`; the
private key decrypts the probe `plain` encrypted under the public key; both keys
decode from their encodings; parsing the serialised record gives the record
back; and the validation token and the name of `f` are values of
`asymm::Signature` and `Identity`, the types of the data members
`validation_token_` and `name_`: decoding the encoding of `f` at the same tag
succeeds and yields `f` (same name, keys and validation token). -/
theorem Fob_round_trip (P : Primitives) (kValue : Nat) (f : Fob) (plain : Bytes)
    (hv : kValue < 2 ^ 32)
    (hname : kValue ≠ P.MpidTag_kValue →
      f.name = CreateFobName P f.keys.public_key f.validation_token)
    (hprobe : P.Decrypt (P.Encrypt plain f.keys.public_key) f.keys.private_key = plain)
    (hpub : P.DecodePublicKey (P.EncodePublicKey f.keys.public_key)
      = some f.keys.public_key)
    (hpriv : P.DecodePrivateKey (P.EncodePrivateKey f.keys.private_key)
      = some f.keys.private_key)
    (hser : P.ParseFromString (P.SerializeAsString (f.ToProtobuf P kValue protobuf.Fob.unset))
      = f.ToProtobuf P kValue protobuf.Fob.unset)
    (hsig : P.SignatureThrows f.validation_token = none)
    (hid : P.IdentityThrows f.name = none) :
    Fob.Parse P kValue (Fob.Serialise P kValue f) plain = .ok f := by
  have hu : u32 kValue = kValue := Nat.mod_eq_of_lt hv
  unfold Fob.Parse Fob.Serialise Fob.fromProtobuf
  rw [hser]
  by_cases hm : kValue = P.MpidTag_kValue
  · have hu2 : u32 P.MpidTag_kValue = P.MpidTag_kValue := hm ▸ hu
    simp [FobFromProtobuf, Fob.ToProtobuf, FobToProtobuf, protobuf.Fob.IsInitialized,
      protobuf.Fob.get_validation_token, protobuf.Fob.get_name,
      protobuf.Fob.get_encoded_private_key, protobuf.Fob.get_encoded_public_key,
      protobuf.Fob.get_type, hsig, hid, hpub, hpriv, hprobe, hu2, hm]
  · simp [FobFromProtobuf, Fob.ToProtobuf, FobToProtobuf, protobuf.Fob.IsInitialized,
      protobuf.Fob.get_validation_token, protobuf.Fob.get_name,
      protobuf.Fob.get_encoded_private_key, protobuf.Fob.get_encoded_public_key,
      protobuf.Fob.get_type, hsig, hid, hpub, hpriv, hprobe, hu, ← hname hm]

set_option maxRecDepth 100000 in
/-- C3 at `sample.primitives`: `sample.fob` as a Pmid, through `SerialisePmid` and
`ParsePmid`, with the probe `[3, 4, 5]`. -/
theorem Fob_round_trip_witness :
    ParsePmid sample.primitives (SerialisePmid sample.primitives sample.fob) [3, 4, 5]
      = .ok sample.fob :=
  Fob_round_trip sample.primitives sample.primitives.PmidTag_kValue sample.fob [3, 4, 5]
    (by decide) (fun _ => rfl) (by decide) (by decide) (by decide) (by decide)
    (by decide) (by decide)

/-- C4. For every fob `f` encoded at the tag value `kValue` (a 32-bit value) whose
keys decode from their encodings and whose validation token and name are values
of `asymm::Signature` and `Identity`, the types of the data members
`validation_token_` and `name_`, and every requested tag value other than
`kValue`: decoding the encoding fails with `fob_parsing_error`, whatever name,
validation token and keys `f` holds. -/
theorem Fob_tag_mismatch (P : Primitives) (kValue requested : Nat) (f : Fob) (plain : Bytes)
    (hv : kValue < 2 ^ 32) (hne : requested ≠ kValue)
    (hpub : (P.DecodePublicKey (P.EncodePublicKey f.keys.public_key)).isSome = true)
    (hpriv : (P.DecodePrivateKey (P.EncodePrivateKey f.keys.private_key)).isSome = true)
    (hser : P.ParseFromString (P.SerializeAsString (f.ToProtobuf P kValue protobuf.Fob.unset))
      = f.ToProtobuf P kValue protobuf.Fob.unset)
    (hsig : P.SignatureThrows f.validation_token = none)
    (hid : P.IdentityThrows f.name = none) :
    Fob.Parse P requested (Fob.Serialise P kValue f) plain = .error .fob_parsing_error := by
  have hu : u32 kValue = kValue := Nat.mod_eq_of_lt hv
  obtain ⟨pub, hpub⟩ := Option.isSome_iff_exists.mp hpub
  obtain ⟨priv, hpriv⟩ := Option.isSome_iff_exists.mp hpriv
  unfold Fob.Parse Fob.Serialise Fob.fromProtobuf
  rw [hser]
  simp [FobFromProtobuf, Fob.ToProtobuf, FobToProtobuf, protobuf.Fob.IsInitialized,
    protobuf.Fob.get_validation_token, protobuf.Fob.get_name,
    protobuf.Fob.get_encoded_private_key, protobuf.Fob.get_encoded_public_key,
    protobuf.Fob.get_type, hsig, hid, hpub, hpriv, hu, hne]

set_option maxRecDepth 100000 in
/-- C4 at `sample.primitives`: `sample.fob` serialised as a Pmid (tag value 5) and
decoded at the tag value 4. -/
theorem Fob_tag_mismatch_witness :
    Fob.Parse sample.primitives 4 (SerialisePmid sample.primitives sample.fob) [3, 4, 5]
      = .error .fob_parsing_error :=
  Fob_tag_mismatch sample.primitives sample.primitives.PmidTag_kValue 4 sample.fob [3, 4, 5]
    (by decide) (by decide) (by decide) (by decide) (by decide) (by decide) (by decide)

/-- The constructions of lines 46-47 are not guarded: a record with all five fields
set whose validation token the constructor `asymm::Signature` rejects, or whose
token it accepts and whose name the constructor `Identity` rejects, leaves
`FobFromProtobuf` with the exception of that constructor, before the keys are
decoded and the test of lines 52-54 is made. -/
theorem FobFromProtobuf_constructor_throws (P : Primitives) (proto_fob : protobuf.Fob)
    (enum_value : Nat) (plain : Bytes) (e : Exn)
    (hinit : proto_fob.IsInitialized = true)
    (h : P.SignatureThrows proto_fob.get_validation_token = some e ∨
      (P.SignatureThrows proto_fob.get_validation_token = none ∧
        P.IdentityThrows proto_fob.get_name = some e)) :
    FobFromProtobuf P proto_fob enum_value plain = .error e := by
  rcases h with hsig | ⟨hsig, hid⟩
  · simp [FobFromProtobuf, hinit, hsig]
  · simp [FobFromProtobuf, hinit, hsig, hid]

set_option maxRecDepth 100000 in
/-- C11, counterexample. On the packet `TmidPacket("u", "1", false, "", "")`:
`DecryptMasterData("", [1])` (empty password) returns the empty value and leaves
`username`, `pin` and `rid` in place; `DecryptMasterData("p", "")` (empty encrypted
data) returns the empty value and leaves `username`, `pin` and `rid` in place. In
neither case is the packet empty afterwards. -/
theorem TmidPacket_DecryptMasterData_empty_result_keeps_fields :
    ∃ t st1 st2,
      TmidPacket.new sample.primitives [117] [49] false [] [] = .returns () t ∧
      TmidPacket.DecryptMasterData sample.primitives t [] [1] = .returns [] st1 ∧
      st1 ≠ TmidPacket.emptyWith .kTmid ∧
      st1.username = [117] ∧ st1.pin = [49] ∧ st1.rid = sample.Hash [49] ∧
      TmidPacket.DecryptMasterData sample.primitives t [112] [] = .returns [] st2 ∧
      st2 ≠ TmidPacket.emptyWith .kTmid ∧
      st2.username = [117] ∧ st2.pin = [49] ∧ st2.rid = sample.Hash [49] :=
  ⟨{ packet_type := .kTmid, name := [], username := [117], pin := [49], password := [],
     rid := sample.Hash [49], plain_text_master_data := [], salt := [],
     secure_key := [], secure_iv := [], encrypted_master_data := [],
     obfuscated_master_data := [], obfuscation_salt := [] },
   { packet_type := .kTmid, name := [], username := [117], pin := [49], password := [],
     rid := sample.Hash [49], plain_text_master_data := [], salt := [],
     secure_key := [], secure_iv := [], encrypted_master_data := [],
     obfuscated_master_data := [], obfuscation_salt := [] },
   { packet_type := .kTmid, name := [], username := [117], pin := [49], password := [],
     rid := sample.Hash [49], plain_text_master_data := [], salt := [],
     secure_key := [], secure_iv := [], encrypted_master_data := [],
     obfuscated_master_data := [], obfuscation_salt := [] },
   by decide, by decide, by decide, rfl, rfl, rfl, by decide, by decide, rfl, rfl, rfl⟩

/-- C11, amended. For every packet state `t`, password `pw` and string `c`:
(a) when `pw` is empty or `rid` has fewer than 4 bytes, `DecryptMasterData(pw, c)`
    returns the empty value; afterwards `password = pw` and `salt`, `secure_key`,
    `secure_iv` are empty, and every other member is as before;
(b) when `pw` is accepted and the salt `H(rid ‖ pw)` is empty or the password
    derivation fails, it returns the empty value and every member is empty;
(c) when the password derivation succeeds with at least `key_size` bytes and `c`
    is empty, it returns the empty value; afterwards `password`, `salt`,
    `secure_key`, `secure_iv` are empty, and every other member is as before. -/
theorem TmidPacket_DecryptMasterData_empty_result (P : Primitives) (t : TmidPacket)
    (pw c : Bytes) :
    ((pw = [] ∨ t.rid.length < 4) →
      TmidPacket.DecryptMasterData P t pw c = .returns []
        { t with password := pw, salt := [], secure_key := [], secure_iv := [] }) ∧
    (pw ≠ [] → 4 ≤ t.rid.length →
      (P.Hash (t.rid ++ pw) = [] ∨
        P.SecurePassword pw (P.Hash (t.rid ++ pw)) (littleEndianU32 t.rid) = none) →
      TmidPacket.DecryptMasterData P t pw c
        = .returns [] (TmidPacket.emptyWith t.packet_type)) ∧
    (∀ sp : Bytes, pw ≠ [] → 4 ≤ t.rid.length → P.Hash (t.rid ++ pw) ≠ [] →
      P.SecurePassword pw (P.Hash (t.rid ++ pw)) (littleEndianU32 t.rid) = some sp →
      P.AES256_KeySize ≤ sp.length → c = [] →
      TmidPacket.DecryptMasterData P t pw c = .returns []
        { t with password := [], salt := [], secure_key := [], secure_iv := [] }) := by
  refine ⟨?_, ?_, ?_⟩
  · intro h
    have hc : (pw.isEmpty || decide (t.rid.length < 4)) = true := by
      rcases h with h | h
      · simp [h]
      · simp [h]
    simp only [TmidPacket.DecryptMasterData, TmidPacket.SetPassword, hc, if_true]
  · intro hpw hrid hfail
    have h4 : ¬ t.rid.length < 4 := by omega
    rcases hfail with hsalt | hkdf
    · simp only [TmidPacket.DecryptMasterData, TmidPacket.SetPassword,
        isEmpty_eq_false_of_ne hpw, h4, decide_False, Bool.or_self, Bool.false_eq_true,
        if_false, hsalt, List.isEmpty_nil, if_true, TmidPacket.Clear, TmidPacket.emptyWith]
    · by_cases hsalt : P.Hash (t.rid ++ pw) = []
      · simp only [TmidPacket.DecryptMasterData, TmidPacket.SetPassword,
          isEmpty_eq_false_of_ne hpw, h4, decide_False, Bool.or_self, Bool.false_eq_true,
          if_false, hsalt, List.isEmpty_nil, if_true, TmidPacket.Clear,
          TmidPacket.emptyWith]
      · simp only [TmidPacket.DecryptMasterData, TmidPacket.SetPassword,
          isEmpty_eq_false_of_ne hpw, h4, decide_False, Bool.or_self, Bool.false_eq_true,
          if_false, isEmpty_eq_false_of_ne hsalt, random_no_from_rid_eq _ hrid, hkdf,
          TmidPacket.Clear, TmidPacket.emptyWith]
  · intro sp hpw hrid hsalt hkdf hk hc
    subst hc
    unfold TmidPacket.DecryptMasterData
    simp only []
    rw [TmidPacket_SetPassword_of_success P { t with password := pw } sp hpw hrid hsalt
      hkdf hk]
    simp only [List.isEmpty_nil, if_true]

set_option maxRecDepth 100000 in
/-- C11 (amended) on `sample.sibling`, one input for each part: an empty password;
a failing key derivation (`sample.noKdf`); empty encrypted data. -/
theorem TmidPacket_DecryptMasterData_empty_result_witness :
    TmidPacket.new sample.primitives [117] [49] false [] [] = .returns () sample.sibling ∧
    TmidPacket.DecryptMasterData sample.primitives sample.sibling [] [1] = .returns []
      { sample.sibling with password := [], salt := [], secure_key := [],
                            secure_iv := [] } ∧
    TmidPacket.DecryptMasterData sample.noKdf sample.sibling [112] [1]
      = .returns [] (TmidPacket.emptyWith .kTmid) ∧
    TmidPacket.DecryptMasterData sample.primitives sample.sibling [112] [] = .returns []
      { sample.sibling with password := [], salt := [], secure_key := [],
                            secure_iv := [] } :=
  ⟨by decide,
   (TmidPacket_DecryptMasterData_empty_result sample.primitives sample.sibling [] [1]).1
      (Or.inl rfl),
   (TmidPacket_DecryptMasterData_empty_result sample.noKdf sample.sibling [112] [1]).2.1
      (by decide) (by decide) (Or.inr rfl),
   (TmidPacket_DecryptMasterData_empty_result sample.primitives sample.sibling [112] []).2.2
      (sample.stream 319951227) (by decide) (by decide) (by decide) (by decide)
      (by decide) rfl⟩

/-! ## TmidPacket: a PIN that does not parse -/

set_option maxRecDepth 100000 in
/-- C12, the code at a failing input. With username "u", password "p", master data
"M" and the non-empty PIN "a", which does not parse: `SetPassword` succeeds, and
`ObfuscatePlainData` throws `bad_lexical_cast` at line 317, which nothing catches:
the constructor raises, with `username`, `pin`, `password`, `rid` and the derived
key material set at that moment. The constructor of `MidPacket` on the same
username and PIN returns normally with an empty packet. -/
theorem TmidPacket_new_unparsable_pin_throws :
    sample.primitives.lexical_cast [97] = none ∧
    (∃ st, TmidPacket.new sample.primitives [117] [97] false [112] [77]
        = .throws .bad_lexical_cast st ∧
      st.username = [117] ∧ st.pin = [97] ∧ st.password = [112] ∧
      st.rid = sample.Hash [97] ∧ st.secure_key ≠ []) ∧
    MidPacket.new sample.primitives [117] [97] [] = .returns ()
      { packet_type := .kMid, name := [], username := [], pin := [], smid_appendix := [],
        rid := [], encrypted_rid := [], salt := [], secure_key := [], secure_iv := [] } := by
  refine ⟨by decide, ⟨?_, ?_⟩, by decide⟩
  · exact
      { packet_type := .kTmid, name := [], username := [117], pin := [97],
        password := [112], rid := sample.Hash [97], plain_text_master_data := [77],
        salt := sample.Hash (sample.Hash [97] ++ [112]),
        secure_key :=
          ((sample.SecurePassword [112] (sample.Hash (sample.Hash [97] ++ [112]))
            (littleEndianU32 (sample.Hash [97]))).getD []).take 32,
        secure_iv :=
          (((sample.SecurePassword [112] (sample.Hash (sample.Hash [97] ++ [112]))
            (littleEndianU32 (sample.Hash [97]))).getD []).drop 32).take 16,
        encrypted_master_data := [], obfuscated_master_data := [],
        obfuscation_salt := sample.Hash ([112] ++ sample.Hash [97]) }
  · exact ⟨by decide, rfl, rfl, rfl, rfl, by decide⟩

/-! ## MidPacket: never partially valid -/

theorem ne_nil_of_isEmpty_eq_false {x : Bytes} (h : x.isEmpty = false) : x ≠ [] := by
  intro hx
  rw [hx] at h
  exact Bool.noConfusion h

theorem MidPacket_Clear_isEmpty (m : MidPacket) : m.Clear.IsEmpty := by
  simp [MidPacket.Clear, MidPacket.IsEmpty]

/-- A failing `SetRid` leaves the empty state. -/
theorem MidPacket_SetRid_of_failure (P : Primitives) (m : MidPacket) (rid : Bytes)
    (h : rid = [] ∨ P.SymmEncrypt rid m.secure_key m.secure_iv = []) :
    MidPacket.SetRid P m rid = m.Clear := by
  unfold MidPacket.SetRid
  by_cases hr : rid = []
  · subst hr
    simp [MidPacket.Clear]
  · have he : P.SymmEncrypt rid m.secure_key m.secure_iv = [] := h.resolve_left hr
    simp [isEmpty_eq_false_of_ne hr, he, MidPacket.Clear]

/-- A failing `DecryptRid` returns the empty string and leaves the empty state. -/
theorem MidPacket_DecryptRid_of_failure (P : Primitives) (m : MidPacket) (enc : Bytes)
    (h : enc = [] ∨ m.username = [] ∨ m.pin = [] ∨
      P.SymmDecrypt enc m.secure_key m.secure_iv = []) :
    MidPacket.DecryptRid P m enc = ([], m.Clear) := by
  unfold MidPacket.DecryptRid
  by_cases hc : (m.username.isEmpty || m.pin.isEmpty || enc.isEmpty) = true
  · simp only [hc, if_true]
  · simp only [hc, Bool.false_eq_true, if_false]
    simp only [Bool.or_eq_true, not_or, Bool.not_eq_true] at hc
    obtain ⟨⟨hu, hp⟩, he⟩ := hc
    have hd : P.SymmDecrypt enc m.secure_key m.secure_iv = [] := by
      rcases h with h | h | h | h
      · exact absurd h (ne_nil_of_isEmpty_eq_false he)
      · exact absurd h (ne_nil_of_isEmpty_eq_false hu)
      · exact absurd h (ne_nil_of_isEmpty_eq_false hp)
      · exact h
    simp [hd, MidPacket.Clear]

/-- What the constructor returns is empty or initialised. -/
theorem MidPacket_new_invariant (P : Primitives)
    (hH : ∀ x, P.Hash x ≠ [])
    (hKdf : ∀ pw salt n out, P.SecurePassword pw salt n = some out →
      P.AES256_KeySize + P.AES256_IVSize ≤ out.length)
    (hK : 0 < P.AES256_KeySize) (hI : 0 < P.AES256_IVSize)
    (u p a : Bytes) (m : MidPacket) (h : MidPacket.new P u p a = .returns () m) :
    m.IsEmpty ∨ m.IsInitialised := by
  unfold MidPacket.new MidPacket.Initialise at h
  by_cases hc : (u.isEmpty || p.isEmpty) = true
  · simp only [hc, if_true, Outcome.returns.injEq, true_and] at h
    subst h
    exact Or.inl (MidPacket_Clear_isEmpty _)
  · simp only [hc, Bool.false_eq_true, if_false] at h
    simp only [Bool.or_eq_true, not_or, Bool.not_eq_true] at hc
    obtain ⟨hu, hp⟩ := hc
    cases hparse : P.lexical_cast p with
    | none =>
      simp only [hparse, Outcome.returns.injEq, true_and] at h
      subst h
      exact Or.inl (MidPacket_Clear_isEmpty _)
    | some n =>
      cases hkdf : P.SecurePassword u (P.Hash (p ++ u)) n with
      | none =>
        simp only [hparse, hkdf, Outcome.returns.injEq, true_and] at h
        subst h
        exact Or.inl (MidPacket_Clear_isEmpty _)
      | some sp =>
        have hlen := hKdf _ _ _ _ hkdf
        simp only [hparse, hkdf, substr_zero] at h
        by_cases hk : P.AES256_KeySize ≤ sp.length
        · simp only [substr_of_le _ _ _ hk, GetMidName] at h
          by_cases hn : P.Hash (u ++ p ++ a) = []
          · simp only [hn, List.isEmpty_nil, if_true, Outcome.returns.injEq, true_and] at h
            subst h
            exact Or.inl (MidPacket_Clear_isEmpty _)
          · simp only [isEmpty_eq_false_of_ne hn, Bool.false_eq_true, if_false,
              Outcome.returns.injEq, true_and] at h
            subst h
            refine Or.inr ⟨hn, ne_nil_of_isEmpty_eq_false hu, ne_nil_of_isEmpty_eq_false hp,
              hH _, ?_, ?_⟩
            · exact ne_nil_of_length_pos (by simp only [List.length_take]; omega)
            · exact ne_nil_of_length_pos
                (by simp only [List.length_take, List.length_drop]; omega)
        · omega

/-- The constructor returns when the key derivation gives enough bytes. -/
theorem MidPacket_new_returns (P : Primitives)
    (hKdf : ∀ pw salt n out, P.SecurePassword pw salt n = some out →
      P.AES256_KeySize + P.AES256_IVSize ≤ out.length)
    (u p a : Bytes) : ∃ m, MidPacket.new P u p a = .returns () m := by
  unfold MidPacket.new MidPacket.Initialise
  by_cases hc : (u.isEmpty || p.isEmpty) = true
  · simp only [hc, if_true]
    exact ⟨_, rfl⟩
  · simp only [hc, Bool.false_eq_true, if_false]
    cases hparse : P.lexical_cast p with
    | none => exact ⟨_, rfl⟩
    | some n =>
      simp only []
      cases hkdf : P.SecurePassword u (P.Hash (p ++ u)) n with
      | none => exact ⟨_, rfl⟩
      | some sp =>
        have hlen := hKdf _ _ _ _ hkdf
        have hk : P.AES256_KeySize ≤ sp.length := by omega
        simp only [substr_zero, substr_of_le _ _ _ hk]
        by_cases hn : (GetMidName P u p a).isEmpty = true
        · simp only [hn, if_true]
          exact ⟨_, rfl⟩
        · simp only [hn, Bool.false_eq_true, if_false]
          exact ⟨_, rfl⟩

/-- `SetRid` keeps the states empty or initialised. -/
theorem MidPacket_SetRid_invariant (P : Primitives)
    (hE : ∀ data iv, P.SymmEncrypt data [] iv = [])
    (m : MidPacket) (rid : Bytes) (h : m.IsEmpty ∨ m.IsInitialised) :
    (MidPacket.SetRid P m rid).IsEmpty ∨ (MidPacket.SetRid P m rid).IsInitialised := by
  by_cases hf : rid = [] ∨ P.SymmEncrypt rid m.secure_key m.secure_iv = []
  · rw [MidPacket_SetRid_of_failure P m rid hf]
    exact Or.inl (MidPacket_Clear_isEmpty m)
  · simp only [not_or] at hf
    rcases h with h | h
    · exact absurd (by rw [h.2.2.2.2.2.2.2.1]; exact hE _ _) hf.2
    · refine Or.inr ?_
      simp only [MidPacket.SetRid, isEmpty_eq_false_of_ne hf.1, isEmpty_eq_false_of_ne hf.2,
        Bool.false_eq_true, if_false]
      exact h

/-- `DecryptRid` keeps the states empty or initialised. -/
theorem MidPacket_DecryptRid_invariant (P : Primitives)
    (m : MidPacket) (enc : Bytes) (h : m.IsEmpty ∨ m.IsInitialised) :
    (MidPacket.DecryptRid P m enc).2.IsEmpty ∨
      (MidPacket.DecryptRid P m enc).2.IsInitialised := by
  by_cases hf : enc = [] ∨ m.username = [] ∨ m.pin = [] ∨
      P.SymmDecrypt enc m.secure_key m.secure_iv = []
  · rw [MidPacket_DecryptRid_of_failure P m enc hf]
    exact Or.inl (MidPacket_Clear_isEmpty m)
  · simp only [not_or] at hf
    rcases h with h | h
    · exact absurd h.2.1 hf.2.1
    · refine Or.inr ?_
      simp only [MidPacket.DecryptRid, isEmpty_eq_false_of_ne hf.1,
        isEmpty_eq_false_of_ne hf.2.1, isEmpty_eq_false_of_ne hf.2.2.1,
        isEmpty_eq_false_of_ne hf.2.2.2, Bool.or_self, Bool.false_eq_true, if_false]
      exact h

/-- C13. When hash outputs are never empty, a successful `SecurePassword` returns at
least `key_size + iv_size` bytes, both sizes are positive and `SymmEncrypt` under
an empty key returns the empty string:
every state reachable from either constructor by `SetRid`, `DecryptRid` and
`Clear` has all of `name`, `username`, `pin`, `smid_appendix`, `rid`,
`encrypted_rid`, `salt`, `secure_key`, `secure_iv` empty, or has `name`,
`username`, `pin`, `salt`, `secure_key` and `secure_iv` all non-empty; the
three-argument constructor always returns; a `SetRid` with an empty `rid` or an
empty encryption result leaves the empty state; a `DecryptRid` with an empty
input, an empty `username` or `pin`, or an empty decryption result returns the
empty string and leaves the empty state. -/
theorem MidPacket_never_partially_valid (P : Primitives)
    (hH : ∀ x, P.Hash x ≠ [])
    (hKdf : ∀ pw salt n out, P.SecurePassword pw salt n = some out →
      P.AES256_KeySize + P.AES256_IVSize ≤ out.length)
    (hK : 0 < P.AES256_KeySize) (hI : 0 < P.AES256_IVSize)
    (hE : ∀ data iv, P.SymmEncrypt data [] iv = []) :
    (∀ m, MidPacket.Reachable P m → m.IsEmpty ∨ m.IsInitialised) ∧
    (∀ u p a, ∃ m, MidPacket.new P u p a = .returns () m) ∧
    (∀ m rid, (rid = [] ∨ P.SymmEncrypt rid m.secure_key m.secure_iv = []) →
      (MidPacket.SetRid P m rid).IsEmpty) ∧
    (∀ m enc, (enc = [] ∨ m.username = [] ∨ m.pin = [] ∨
        P.SymmDecrypt enc m.secure_key m.secure_iv = []) →
      (MidPacket.DecryptRid P m enc).1 = [] ∧ (MidPacket.DecryptRid P m enc).2.IsEmpty) := by
  refine ⟨?_, ?_, ?_, ?_⟩
  · intro m hm
    induction hm with
    | newEmpty => exact Or.inl (by simp [MidPacket.newEmpty, MidPacket.IsEmpty])
    | new u p a m h => exact MidPacket_new_invariant P hH hKdf hK hI u p a m h
    | SetRid m rid _ ih => exact MidPacket_SetRid_invariant P hE m rid ih
    | DecryptRid m enc _ ih => exact MidPacket_DecryptRid_invariant P m enc ih
    | Clear m _ _ => exact Or.inl (MidPacket_Clear_isEmpty m)
  · intro u p a
    exact MidPacket_new_returns P hKdf u p a
  · intro m rid h
    rw [MidPacket_SetRid_of_failure P m rid h]
    exact MidPacket_Clear_isEmpty m
  · intro m enc h
    rw [MidPacket_DecryptRid_of_failure P m enc h]
    exact ⟨rfl, MidPacket_Clear_isEmpty m⟩

theorem sample_Hash_ne_nil (x : Bytes) : sample.primitives.Hash x ≠ [] :=
  ne_nil_of_length_pos (by
    show 0 < (sample.Hash x).length
    simp [sample.Hash])

theorem sample_SecurePassword_length (pw salt : Bytes) (n : Nat) (out : Bytes)
    (h : sample.primitives.SecurePassword pw salt n = some out) :
    sample.primitives.AES256_KeySize + sample.primitives.AES256_IVSize ≤ out.length := by
  have h1 : sample.SecurePassword pw salt n = some out := h
  unfold sample.SecurePassword at h1
  split at h1
  · exact Option.noConfusion h1
  · have h2 := Option.some.inj h1
    subst h2
    show 32 + 16 ≤ (sample.stream _).length
    simp [sample.stream]

theorem sample_SymmEncrypt_empty_key (data iv : Bytes) :
    sample.primitives.SymmEncrypt data [] iv = [] := by
  show sample.SymmEncrypt data [] iv = []
  simp [sample.SymmEncrypt]

set_option maxRecDepth 100000 in
/-- C13 at `sample.primitives`: the invariant for its reachable states; `SetRid("R")`
on the default-constructed packet (empty key) leaves the empty state; so does
`DecryptRid("")` on the packet `MidPacket("u", "1", "")` after `SetRid("R")`, which
before that call is initialised. -/
theorem MidPacket_never_partially_valid_witness :
    (∀ m, MidPacket.Reachable sample.primitives m → m.IsEmpty ∨ m.IsInitialised) ∧
    (MidPacket.SetRid sample.primitives MidPacket.newEmpty [82]).IsEmpty ∧
    (∃ m, MidPacket.new sample.primitives [117] [49] [] = .returns () m ∧
      (MidPacket.SetRid sample.primitives m [82]).IsInitialised ∧
      (MidPacket.SetRid sample.primitives m [82]).rid = [82] ∧
      (MidPacket.DecryptRid sample.primitives
        (MidPacket.SetRid sample.primitives m [82]) []).2.IsEmpty) :=
  have h := MidPacket_never_partially_valid sample.primitives sample_Hash_ne_nil
    sample_SecurePassword_length (by decide) (by decide) sample_SymmEncrypt_empty_key
  ⟨h.1, h.2.2.1 _ _ (Or.inr (by decide)),
   ⟨{ packet_type := .kMid, name := sample.Hash [117, 49], username := [117], pin := [49],
      smid_appendix := [], rid := [], encrypted_rid := [], salt := sample.Hash [49, 117],
      secure_key := (sample.stream 117).take 32,
      secure_iv := ((sample.stream 117).drop 32).take 16 },
    by decide, by decide, by decide, (h.2.2.2 _ _ (Or.inl rfl)).2⟩⟩

/-! ## MidPacket: surrogate and main names -/

/-- When the key derivation succeeds, the constructor returns a packet whose name is
`H(u ‖ p ‖ a)` (an empty digest clears the packet, and the name is empty then
too) and whose kind follows the appendix. -/
theorem MidPacket_new_name (P : Primitives) (u p a sp : Bytes) (n : Nat)
    (hu : u ≠ []) (hp : p ≠ []) (hparse : P.lexical_cast p = some n)
    (hkdf : P.SecurePassword u (P.Hash (p ++ u)) n = some sp)
    (hlen : P.AES256_KeySize + P.AES256_IVSize ≤ sp.length) :
    ∃ m, MidPacket.new P u p a = .returns () m ∧
      m.packet_type = (if a.isEmpty then .kMid else .kSmid) ∧
      m.name = P.Hash (u ++ p ++ a) := by
  have hk : P.AES256_KeySize ≤ sp.length := by omega
  by_cases hn : P.Hash (u ++ p ++ a) = []
  · refine ⟨{ packet_type := if a.isEmpty then .kMid else .kSmid, name := [],
              username := [], pin := [], smid_appendix := [], rid := [],
              encrypted_rid := [], salt := [], secure_key := [], secure_iv := [] },
            ?_, rfl, hn.symm⟩
    simp only [MidPacket.new, MidPacket.Initialise, isEmpty_eq_false_of_ne hu,
      isEmpty_eq_false_of_ne hp, Bool.or_self, Bool.false_eq_true, if_false, hparse, hkdf,
      substr_zero, substr_of_le _ _ _ hk, GetMidName, hn, List.isEmpty_nil, if_true,
      MidPacket.Clear]
  · exact ⟨_, MidPacket_new_of_success P u p a sp n hu hp hparse hkdf hlen hn, rfl, rfl⟩

set_option maxRecDepth 100000 in
/-- C14, counterexample. With a key derivation that fails (`sample.noKdf`), for the
username "u", the PIN "1" (which parses) and the appendix "S": the hash gives
different digests on the two inputs, both constructors return the empty packet,
and the two names are equal (both empty). -/
theorem MidPacket_surrogate_same_name_when_kdf_fails :
    sample.noKdf.lexical_cast [49] = some 1 ∧
    sample.noKdf.SecurePassword [117] (sample.noKdf.Hash ([49] ++ [117])) 1 = none ∧
    sample.noKdf.Hash ([117] ++ [49] ++ [83]) ≠ sample.noKdf.Hash ([117] ++ [49] ++ []) ∧
    ∃ m1 m2, MidPacket.new sample.noKdf [117] [49] [83] = .returns () m1 ∧
      MidPacket.new sample.noKdf [117] [49] [] = .returns () m2 ∧
      m1.name = m2.name :=
  ⟨by decide, by decide, by decide,
   { packet_type := .kSmid, name := [], username := [], pin := [], smid_appendix := [],
     rid := [], encrypted_rid := [], salt := [], secure_key := [], secure_iv := [] },
   { packet_type := .kMid, name := [], username := [], pin := [], smid_appendix := [],
     rid := [], encrypted_rid := [], salt := [], secure_key := [], secure_iv := [] },
   by decide, by decide, rfl⟩

/-- C14, amended. For a non-empty username `u`, a non-empty PIN `p` that parses as
`n` and a non-empty appendix `a`, when `SecurePassword(u, H(p ‖ u), n)` succeeds
with at least `key_size + iv_size` bytes: the hash inputs `u ‖ p ‖ a` and `u ‖ p`
differ; both constructors return; the first packet has kind Smid and the second
kind Mid; and the two names differ whenever the hash is injective on these two
inputs. -/
theorem MidPacket_surrogate_main_independence (P : Primitives) (u p a sp : Bytes) (n : Nat)
    (hu : u ≠ []) (hp : p ≠ []) (hparse : P.lexical_cast p = some n) (ha : a ≠ [])
    (hkdf : P.SecurePassword u (P.Hash (p ++ u)) n = some sp)
    (hlen : P.AES256_KeySize + P.AES256_IVSize ≤ sp.length) :
    u ++ p ++ a ≠ u ++ p ++ [] ∧
    ∃ m1 m2, MidPacket.new P u p a = .returns () m1 ∧
      MidPacket.new P u p [] = .returns () m2 ∧
      m1.packet_type = .kSmid ∧ m2.packet_type = .kMid ∧
      ((P.Hash (u ++ p ++ a) = P.Hash (u ++ p ++ []) → u ++ p ++ a = u ++ p ++ []) →
        m1.name ≠ m2.name) := by
  have hin : u ++ p ++ a ≠ u ++ p ++ [] := by
    intro h
    exact ha (List.append_cancel_left h)
  obtain ⟨m1, h1, hk1, hn1⟩ := MidPacket_new_name P u p a sp n hu hp hparse hkdf hlen
  obtain ⟨m2, h2, hk2, hn2⟩ := MidPacket_new_name P u p [] sp n hu hp hparse hkdf hlen
  refine ⟨hin, m1, m2, h1, h2, ?_, ?_, ?_⟩
  · rw [hk1, isEmpty_eq_false_of_ne ha]
    rfl
  · rw [hk2]
    rfl
  · intro hinj heq
    rw [hn1, hn2] at heq
    exact hin (hinj heq)

set_option maxRecDepth 100000 in
/-- C14 (amended) at `sample.primitives`: username "u", PIN "1", appendix "S". -/
theorem MidPacket_surrogate_main_independence_witness :
    sample.primitives.lexical_cast [49] = some 1 ∧
    ∃ m1 m2, MidPacket.new sample.primitives [117] [49] [83] = .returns () m1 ∧
      MidPacket.new sample.primitives [117] [49] [] = .returns () m2 ∧
      m1.packet_type = .kSmid ∧ m2.packet_type = .kMid ∧ m1.name ≠ m2.name := by
  obtain ⟨_, m1, m2, h1, h2, hk1, hk2, hne⟩ :=
    MidPacket_surrogate_main_independence sample.primitives [117] [49] [83]
      (sample.stream 117) 1 (by decide) (by decide) (by decide) (by decide) (by decide)
      (by decide)
  exact ⟨by decide, m1, m2, h1, h2, hk1, hk2,
    hne (fun h => absurd h (by decide))⟩

/-! ## TmidPacket: the surrogate flag -/

theorem TmidPacket_SetPassword_withType (P : Primitives) (k : PacketType) (t : TmidPacket) :
    TmidPacket.SetPassword P (t.withType k)
      = (TmidPacket.SetPassword P t).mapState (TmidPacket.withType k) := by
  unfold TmidPacket.SetPassword
  simp only [TmidPacket.withType]
  repeat' split
  all_goals rfl

theorem TmidPacket_ObfuscatePlainData_withType (P : Primitives) (k : PacketType)
    (t : TmidPacket) :
    TmidPacket.ObfuscatePlainData P (t.withType k)
      = (TmidPacket.ObfuscatePlainData P t).mapState (TmidPacket.withType k) := by
  unfold TmidPacket.ObfuscatePlainData
  simp only [TmidPacket.withType]
  repeat' split
  all_goals rfl

theorem TmidPacket_SetPlainData_withType (P : Primitives) (k : PacketType) (t : TmidPacket) :
    TmidPacket.SetPlainData P (t.withType k)
      = ((TmidPacket.SetPlainData P t).1, (TmidPacket.SetPlainData P t).2.withType k) := by
  unfold TmidPacket.SetPlainData
  simp only [TmidPacket.withType]
  repeat' split
  all_goals rfl

theorem TmidPacket_Initialise_withType (P : Primitives) (k : PacketType) (t : TmidPacket) :
    TmidPacket.Initialise P (t.withType k)
      = (TmidPacket.Initialise P t).mapState (TmidPacket.withType k) := by
  unfold TmidPacket.Initialise
  rw [TmidPacket_SetPassword_withType]
  by_cases hc : (t.username.isEmpty || t.pin.isEmpty || t.rid.isEmpty) = true
  · have hc2 : ((t.withType k).username.isEmpty || (t.withType k).pin.isEmpty ||
        (t.withType k).rid.isEmpty) = true := hc
    simp only [hc, hc2, if_true]
    rfl
  · have hc2 : ¬ ((t.withType k).username.isEmpty || (t.withType k).pin.isEmpty ||
        (t.withType k).rid.isEmpty) = true := hc
    simp only [hc, hc2, if_false]
    cases h1 : TmidPacket.SetPassword P t with
    | diverges => rfl
    | throws e st => rfl
    | returns b t1 =>
      cases b with
      | false => rfl
      | true =>
        simp only [Outcome.mapState]
        rw [TmidPacket_ObfuscatePlainData_withType]
        cases h2 : TmidPacket.ObfuscatePlainData P t1 with
        | diverges => rfl
        | throws e st => rfl
        | returns b t2 =>
          cases b with
          | false => rfl
          | true =>
            simp only [Outcome.mapState]
            rw [TmidPacket_SetPlainData_withType]
            cases h3 : TmidPacket.SetPlainData P t2 with
            | mk b t3 =>
              cases b with
              | false => rfl
              | true => rfl

/-- `Initialise` returns a packet of the kind it started with. -/
theorem TmidPacket_Initialise_packet_type (P : Primitives) (t t1 : TmidPacket) (r : Unit)
    (h : TmidPacket.Initialise P t = .returns r t1) : t1.packet_type = t.packet_type := by
  have hw : TmidPacket.Initialise P (t.withType t.packet_type)
      = (TmidPacket.Initialise P t).mapState (TmidPacket.withType t.packet_type) :=
    TmidPacket_Initialise_withType P t.packet_type t
  have ht : t.withType t.packet_type = t := rfl
  rw [ht, h] at hw
  simp only [Outcome.mapState, Outcome.returns.injEq, true_and] at hw
  rw [hw]
  rfl

/-- C15. For every `(username, pin, password, plain_text_master_data)`, the outcome
of `TmidPacket(username, pin, true, password, data)` is the outcome of
`TmidPacket(username, pin, false, password, data)` with the kind set to Stmid and
every other member unchanged; a packet returned with the flag has kind Stmid, one
returned without it has kind Tmid; in particular, when both return, the two
packets have the same name. -/
theorem TmidPacket_surrogate_only_kind (P : Primitives) (u p pw m : Bytes) :
    TmidPacket.new P u p true pw m
      = (TmidPacket.new P u p false pw m).mapState (TmidPacket.withType .kStmid) ∧
    (∀ r t, TmidPacket.new P u p true pw m = .returns r t → t.packet_type = .kStmid) ∧
    (∀ r t, TmidPacket.new P u p false pw m = .returns r t → t.packet_type = .kTmid) ∧
    (∀ r1 r2 t1 t2, TmidPacket.new P u p true pw m = .returns r1 t1 →
      TmidPacket.new P u p false pw m = .returns r2 t2 →
      t1 = { t2 with packet_type := .kStmid } ∧ t1.name = t2.name) := by
  have heq : TmidPacket.new P u p true pw m
      = (TmidPacket.new P u p false pw m).mapState (TmidPacket.withType .kStmid) := by
    unfold TmidPacket.new
    exact TmidPacket_Initialise_withType P .kStmid
      { packet_type := if false = true then .kStmid else .kTmid,
        name := [], username := u, pin := p, password := pw, rid := P.Hash p,
        plain_text_master_data := m, salt := [], secure_key := [], secure_iv := [],
        encrypted_master_data := [], obfuscated_master_data := [], obfuscation_salt := [] }
  refine ⟨heq, ?_, ?_, ?_⟩
  · intro r t h
    exact TmidPacket_Initialise_packet_type P _ t r h
  · intro r t h
    exact TmidPacket_Initialise_packet_type P _ t r h
  · intro r1 r2 t1 t2 h1 h2
    rw [h2, h1] at heq
    simp only [Outcome.mapState, Outcome.returns.injEq] at heq
    rw [heq.2]
    exact ⟨rfl, rfl⟩

set_option maxRecDepth 100000 in
/-- C15 at `sample.primitives`: username "u", PIN "1", password "p", data "MNO". -/
theorem TmidPacket_surrogate_only_kind_witness :
    ∃ t1 t2,
      TmidPacket.new sample.primitives [117] [49] true [112] [77, 78, 79]
        = .returns () t1 ∧
      TmidPacket.new sample.primitives [117] [49] false [112] [77, 78, 79]
        = .returns () t2 ∧
      t1.packet_type = .kStmid ∧ t2.packet_type = .kTmid ∧
      t1 = { t2 with packet_type := .kStmid } ∧ t1.name = t2.name ∧ t1.name ≠ [] :=
  have h := TmidPacket_surrogate_only_kind sample.primitives [117] [49] [112] [77, 78, 79]
  have h1 : TmidPacket.new sample.primitives [117] [49] true [112] [77, 78, 79]
      = .returns ()
        { packet_type := .kStmid, name := sample.Hash [166, 24, 24, 24], username := [117],
          pin := [49], password := [112], rid := sample.Hash [49],
          plain_text_master_data := [77, 78, 79],
          salt := sample.Hash (sample.Hash [49] ++ [112]),
          secure_key := (sample.stream 319951227).take 32,
          secure_iv := ((sample.stream 319951227).drop 32).take 16,
          encrypted_master_data := [166, 24, 24, 24],
          obfuscated_master_data := [24, 24, 24],
          obfuscation_salt := sample.Hash ([112] ++ sample.Hash [49]) } := by decide
  have h2 : TmidPacket.new sample.primitives [117] [49] false [112] [77, 78, 79]
      = .returns ()
        { packet_type := .kTmid, name := sample.Hash [166, 24, 24, 24], username := [117],
          pin := [49], password := [112], rid := sample.Hash [49],
          plain_text_master_data := [77, 78, 79],
          salt := sample.Hash (sample.Hash [49] ++ [112]),
          secure_key := (sample.stream 319951227).take 32,
          secure_iv := ((sample.stream 319951227).drop 32).take 16,
          encrypted_master_data := [166, 24, 24, 24],
          obfuscated_master_data := [24, 24, 24],
          obfuscation_salt := sample.Hash ([112] ++ sample.Hash [49]) } := by decide
  ⟨_, _, h1, h2, h.2.1 _ _ h1, h.2.2.1 _ _ h2, (h.2.2.2 _ _ _ _ h1 h2).1,
    (h.2.2.2 _ _ _ _ h1 h2).2, by decide⟩

/-! ## Fobs: construction of an Mpid -/

/-- C16. For every chosen name, every signing fob and every generated key pair, the
Mpid fob that `Fob<MpidTag>::Fob(chosen_name, signing_fob)` constructs has
`name = H(chosen_name)`, whatever key pair was generated and whatever the
validation token is, and `validation_token = Sign(encode(public_key),
signing_fob.private_key)` for the public key of the fob itself, which is the
generated one. -/
theorem Fob_newMpid_postcondition (P : Primitives) (generated : Keys) (chosen_name : Bytes)
    (signing_fob : Fob) :
    (Fob.newMpid P generated chosen_name signing_fob).name = P.Hash chosen_name ∧
    (Fob.newMpid P generated chosen_name signing_fob).name = CreateMpidName P chosen_name ∧
    (∀ generated2 signing_fob2,
      (Fob.newMpid P generated2 chosen_name signing_fob2).name
        = (Fob.newMpid P generated chosen_name signing_fob).name) ∧
    (Fob.newMpid P generated chosen_name signing_fob).keys = generated ∧
    (Fob.newMpid P generated chosen_name signing_fob).validation_token
      = P.Sign
          (P.EncodePublicKey (Fob.newMpid P generated chosen_name signing_fob).keys.public_key)
          signing_fob.keys.private_key :=
  ⟨rfl, rfl, fun _ _ => rfl, rfl, rfl⟩

/-! ## TmidPacket: the two iteration counts -/

theorem rounds_eq (n : Nat) : rounds n = if n < 2 then n else n / 2 := by
  unfold rounds u32
  by_cases h : n < 2
  · have h01 : n = 0 ∨ n = 1 := by omega
    rcases h01 with h0 | h1
    · subst h0; rfl
    · subst h1; rfl
  · have h2 : ¬ n / 2 = 0 := by omega
    simp only [h, h2, if_false]

/-- C17. For a PIN that parses as `n`: the iteration count `rounds n` of lines 318 and
358 is `n` when `n < 2` (0 for 0, 1 for 1) and `n / 2` when `n ≥ 2`; the branch
`n * 3 / 2` is taken exactly when `n < 2`, where `n * 3` is below `2^32` and is not
changed by the 32-bit wrap; and this count is the one iteration count that both
`ObfuscatePlainData` and `ClarifyObfuscatedData` pass to `SecurePassword`: with a
key derivation that fails at every other count, each gives the same outcome. -/
theorem TmidPacket_obfuscation_rounds (P : Primitives) (t : TmidPacket) (n : Nat)
    (hparse : P.lexical_cast t.pin = some n) :
    rounds n = (if n < 2 then n else n / 2) ∧
    rounds 0 = 0 ∧ rounds 1 = 1 ∧
    (n / 2 = 0 ↔ n < 2) ∧
    (n / 2 = 0 → n * 3 < 2 ^ 32 ∧ u32 (n * 3) = n * 3) ∧
    TmidPacket.ObfuscatePlainData (P.kdfOnlyAt (if n < 2 then n else n / 2)) t
      = TmidPacket.ObfuscatePlainData P t ∧
    TmidPacket.ClarifyObfuscatedData (P.kdfOnlyAt (if n < 2 then n else n / 2)) t
      = TmidPacket.ClarifyObfuscatedData P t := by
  have hr := rounds_eq n
  refine ⟨hr, rfl, rfl, by omega, ?_, ?_, ?_⟩
  · intro h
    have h2 : n < 2 := by omega
    have h3 : n * 3 < 2 ^ 32 := by
      have : n * 3 < 6 := by omega
      exact Nat.lt_trans this (by decide)
    exact ⟨h3, Nat.mod_eq_of_lt h3⟩
  · simp only [TmidPacket.ObfuscatePlainData, Primitives.kdfOnlyAt, hparse, hr, if_true]
  · simp only [TmidPacket.ClarifyObfuscatedData, Primitives.kdfOnlyAt, hparse, hr, if_true]

set_option maxRecDepth 100000 in
/-- C17 at `sample.primitives`: the packet `sample.packet`, whose PIN "1" parses as 1;
with a key derivation that works at the count 2 only, the outcome is another one. -/
theorem TmidPacket_obfuscation_rounds_witness :
    TmidPacket.new sample.primitives [117] [49] false [112] [77, 78, 79]
      = .returns () sample.packet ∧
    sample.primitives.lexical_cast sample.packet.pin = some 1 ∧
    rounds 1 = (if 1 < 2 then 1 else 1 / 2) ∧
    TmidPacket.ObfuscatePlainData
        (sample.primitives.kdfOnlyAt (if 1 < 2 then 1 else 1 / 2)) sample.packet
      = TmidPacket.ObfuscatePlainData sample.primitives sample.packet ∧
    TmidPacket.ClarifyObfuscatedData
        (sample.primitives.kdfOnlyAt (if 1 < 2 then 1 else 1 / 2)) sample.packet
      = TmidPacket.ClarifyObfuscatedData sample.primitives sample.packet ∧
    TmidPacket.ObfuscatePlainData (sample.primitives.kdfOnlyAt 2) sample.packet
      ≠ TmidPacket.ObfuscatePlainData sample.primitives sample.packet :=
  have h := TmidPacket_obfuscation_rounds sample.primitives sample.packet 1 (by decide)
  ⟨by decide, by decide, h.1, h.2.2.2.2.2.1, h.2.2.2.2.2.2, by decide⟩

theorem littleEndianU32_take :
    ∀ rid : Bytes, 4 ≤ rid.length → littleEndianU32 rid = littleEndianU32 (rid.take 4)
  | [], h => absurd h (by simp)
  | [_], h => absurd h (by simp)
  | [_, _], h => absurd h (by simp)
  | [_, _, _], h => absurd h (by simp)
  | _ :: _ :: _ :: _ :: _, _ => rfl

/-- C18. For every `rid` of at least 4 bytes: `rid` starts with four bytes `b0`, `b1`,
`b2`, `b3`, and the loop of `SetPassword` computes
`b0 % 256 + b1 % 256 * 256 + b2 % 256 * 256^2 + b3 % 256 * 256^3` (each byte read
as an unsigned byte), which is `b0 + b1 * 256 + b2 * 256^2 + b3 * 256^3` for bytes
below 256; this value is at most `2^32 - 1`, so the 32-bit accumulator holds the
exact sum; bytes of `rid` beyond index 3 do not affect it; and it is the one
iteration count `SetPassword` passes to `SecurePassword`. -/
theorem TmidPacket_iteration_count_little_endian (P : Primitives) (t : TmidPacket)
    (h : 4 ≤ t.rid.length) :
    (∃ b0 b1 b2 b3 rest, t.rid = b0 :: b1 :: b2 :: b3 :: rest ∧
      random_no_from_rid t.rid
        = some (b0 % 256 + b1 % 256 * 256 + b2 % 256 * 256 ^ 2 + b3 % 256 * 256 ^ 3) ∧
      (b0 < 256 → b1 < 256 → b2 < 256 → b3 < 256 →
        random_no_from_rid t.rid = some (b0 + b1 * 256 + b2 * 256 ^ 2 + b3 * 256 ^ 3))) ∧
    random_no_from_rid t.rid = some (littleEndianU32 t.rid) ∧
    littleEndianU32 t.rid ≤ 2 ^ 32 - 1 ∧
    (∀ rid2 : Bytes, rid2.take 4 = t.rid.take 4 →
      random_no_from_rid rid2 = random_no_from_rid t.rid) ∧
    TmidPacket.SetPassword (P.kdfOnlyAt (littleEndianU32 t.rid)) t
      = TmidPacket.SetPassword P t := by
  have hle : random_no_from_rid t.rid = some (littleEndianU32 t.rid) :=
    random_no_from_rid_eq _ h
  refine ⟨?_, hle, ?_, ?_, ?_⟩
  · match hr : t.rid, h with
    | b0 :: b1 :: b2 :: b3 :: rest, _ =>
      refine ⟨b0, b1, b2, b3, rest, rfl, ?_, ?_⟩
      · rw [← hr, hle, hr]
        simp only [littleEndianU32, List.getD_cons_zero, List.getD_cons_succ]
      · intro h0 h1 h2 h3
        rw [← hr, hle, hr]
        simp only [littleEndianU32, List.getD_cons_zero, List.getD_cons_succ,
          Nat.mod_eq_of_lt h0, Nat.mod_eq_of_lt h1, Nat.mod_eq_of_lt h2, Nat.mod_eq_of_lt h3]
  · unfold littleEndianU32
    omega
  · intro rid2 h2
    have hlen2 : 4 ≤ rid2.length := by
      have hl := congrArg List.length h2
      simp only [List.length_take] at hl
      omega
    rw [random_no_from_rid_eq _ hlen2, hle, littleEndianU32_take rid2 hlen2,
      littleEndianU32_take t.rid h, h2]
  · unfold TmidPacket.SetPassword
    simp only [Primitives.kdfOnlyAt, hle, if_true]

set_option maxRecDepth 100000 in
/-- C18 at `sample.primitives`: the packet `sample.packet`, whose `rid` has 64 bytes
and starts with 16, 17, 18, 19; with a key derivation that works at another count
only, `SetPassword` has another outcome. -/
theorem TmidPacket_iteration_count_little_endian_witness :
    4 ≤ sample.packet.rid.length ∧
    sample.packet.rid.take 4 = [16, 17, 18, 19] ∧
    random_no_from_rid sample.packet.rid
      = some (16 + 17 * 256 + 18 * 256 ^ 2 + 19 * 256 ^ 3) ∧
    random_no_from_rid [16, 17, 18, 19] = random_no_from_rid sample.packet.rid ∧
    TmidPacket.SetPassword
        (sample.primitives.kdfOnlyAt (littleEndianU32 sample.packet.rid)) sample.packet
      = TmidPacket.SetPassword sample.primitives sample.packet ∧
    TmidPacket.SetPassword (sample.primitives.kdfOnlyAt 7) sample.packet
      ≠ TmidPacket.SetPassword sample.primitives sample.packet :=
  have h := TmidPacket_iteration_count_little_endian sample.primitives sample.packet
    (by decide)
  ⟨by decide, by decide, h.2.1.trans (by decide), h.2.2.2.1 [16, 17, 18, 19] (by decide),
    h.2.2.2.2, by decide⟩

/-! ## TmidPacket: rejection by SetPassword -/

/-- C20. For every packet state: when `password` is empty or `rid` has fewer than 4
bytes, `SetPassword` returns `false` and leaves `salt`, `secure_key` and
`secure_iv` empty and every other member (`name`, `username`, `pin`, `password`,
`rid`, `plain_text_master_data`, `encrypted_master_data`,
`obfuscated_master_data`, `obfuscation_salt`, the kind) unchanged; when it does
not reject, the four reads `rid[0]` to `rid[3]` are in range, the loop ends
with a value, and `SetPassword` does not throw from the reads (it can throw
`out_of_range` only with the salt already set, from `substr` on a derived
password shorter than the key size). -/
theorem TmidPacket_SetPassword_rejection (P : Primitives) (t : TmidPacket) :
    ((t.password = [] ∨ t.rid.length < 4) →
      TmidPacket.SetPassword P t = .returns false
        { t with salt := [], secure_key := [], secure_iv := [] }) ∧
    (¬ (t.password = [] ∨ t.rid.length < 4) →
      (∀ i, i < 4 → ∃ b, t.rid[i]? = some b) ∧
      (∃ count, random_no_from_rid t.rid = some count) ∧
      (∀ e st, TmidPacket.SetPassword P t = .throws e st →
        st.salt = P.Hash (t.rid ++ t.password) ∧ st.salt ≠ [] ∧
        ∃ sp, P.SecurePassword t.password st.salt (littleEndianU32 t.rid) = some sp ∧
          sp.length < P.AES256_KeySize)) := by
  refine ⟨?_, ?_⟩
  · intro h
    have hc : (t.password.isEmpty || decide (t.rid.length < 4)) = true := by
      rcases h with h | h
      · simp [h]
      · simp [h]
    simp only [TmidPacket.SetPassword, hc, if_true]
  · intro h
    simp only [not_or, Nat.not_lt] at h
    obtain ⟨hpw, hrid⟩ := h
    refine ⟨?_, ⟨_, random_no_from_rid_eq _ hrid⟩, ?_⟩
    · intro i hi
      have hlt : i < t.rid.length := by omega
      exact ⟨t.rid[i], List.getElem?_eq_getElem hlt⟩
    · intro e st hthrow
      have h4 : ¬ t.rid.length < 4 := by omega
      unfold TmidPacket.SetPassword at hthrow
      simp only [isEmpty_eq_false_of_ne hpw, h4, decide_False, Bool.or_self,
        Bool.false_eq_true, if_false, random_no_from_rid_eq _ hrid, substr_zero] at hthrow
      by_cases hsalt : P.Hash (t.rid ++ t.password) = []
      · simp only [hsalt, List.isEmpty_nil, if_true] at hthrow
        exact Outcome.noConfusion hthrow
      · simp only [isEmpty_eq_false_of_ne hsalt, Bool.false_eq_true, if_false] at hthrow
        cases hkdf : P.SecurePassword t.password (P.Hash (t.rid ++ t.password))
            (littleEndianU32 t.rid) with
        | none =>
          simp only [hkdf] at hthrow
          exact Outcome.noConfusion hthrow
        | some sp =>
          simp only [hkdf] at hthrow
          by_cases hk : P.AES256_KeySize ≤ sp.length
          · simp only [substr_of_le _ _ _ hk] at hthrow
            exact Outcome.noConfusion hthrow
          · have hgt : P.AES256_KeySize > sp.length := by omega
            simp only [substr, hgt, if_true, Outcome.throws.injEq] at hthrow
            obtain ⟨_, hst⟩ := hthrow
            subst hst
            exact ⟨rfl, hsalt, sp, hkdf, by omega⟩

set_option maxRecDepth 100000 in
/-- C20 at `sample.primitives`: `sample.sibling` has an empty password and
`sample.packet` with `rid` cut to 3 bytes has a short `rid`, both are rejected;
`sample.packet` is not rejected and its four reads are in range. -/
theorem TmidPacket_SetPassword_rejection_witness :
    TmidPacket.SetPassword sample.primitives sample.sibling = .returns false
      { sample.sibling with salt := [], secure_key := [], secure_iv := [] } ∧
    TmidPacket.SetPassword sample.primitives { sample.packet with rid := [16, 17, 18] }
      = .returns false
        { sample.packet with rid := [16, 17, 18], salt := [], secure_key := [],
                             secure_iv := [] } ∧
    (∀ i, i < 4 → ∃ b, sample.packet.rid[i]? = some b) ∧
    TmidPacket.SetPassword sample.primitives sample.packet = .returns true sample.packet :=
  ⟨(TmidPacket_SetPassword_rejection sample.primitives sample.sibling).1 (Or.inl rfl),
   (TmidPacket_SetPassword_rejection sample.primitives
      { sample.packet with rid := [16, 17, 18] }).1 (Or.inr (by decide)),
   ((TmidPacket_SetPassword_rejection sample.primitives sample.packet).2 (by decide)).1,
   by decide⟩

/-! ## TmidPacket: the tiled obfuscation string -/

/-- The doubling loop keeps a string a whole number of copies of `s`. -/
theorem doubleUntil_tiled (n : Nat) (s : Bytes) :
    ∀ (k : Nat) (r : Bytes), n - r.length ≤ k → r ≠ [] → s.length ∣ r.length →
      (∀ i, i < r.length → r[i]? = s[i % s.length]?) →
      ∃ r2, doubleUntil n r = some r2 ∧ n ≤ r2.length ∧
        ∀ i, i < r2.length → r2[i]? = s[i % s.length]?
  | 0, r, hk, _, _, hper => by
    rw [doubleUntil]
    have hle : ¬ n > r.length := by omega
    simp only [hle, if_false]
    exact ⟨r, rfl, by omega, hper⟩
  | k + 1, r, hk, hr, hdvd, hper => by
    rw [doubleUntil]
    by_cases hgt : n > r.length
    · have hlen : r.length ≠ 0 := fun h0 => hr (List.length_eq_zero.mp h0)
      simp only [hgt, hlen, if_true, if_false]
      have hpos : 0 < r.length := Nat.pos_of_ne_zero hlen
      refine doubleUntil_tiled n s k (r ++ r) ?_ ?_ ?_ ?_
      · simp only [List.length_append]; omega
      · intro happ
        exact hr (List.append_eq_nil.mp happ).1
      · simp only [List.length_append]
        exact Dvd.dvd.add hdvd hdvd
      · intro i hi
        simp only [List.length_append] at hi
        by_cases hil : i < r.length
        · rw [List.getElem?_append_left hil]
          exact hper i hil
        · have hge : r.length ≤ i := by omega
          rw [List.getElem?_append_right hge, hper (i - r.length) (by omega)]
          obtain ⟨q, hq⟩ := hdvd
          have hi2 : i = (i - r.length) + s.length * q := by omega
          have hmod : i % s.length = (i - r.length) % s.length := by
            conv_lhs => rw [hi2]
            exact Nat.add_mul_mod_self_left _ _ _
          rw [hmod]
    · simp only [hgt, if_false]
      exact ⟨r, rfl, by omega, hper⟩

/-- Resizing a non-empty string `s` to the length `n` gives the first `n` bytes of
the repetition of `s`. -/
theorem resizeForXor_tiled (n : Nat) (s : Bytes) (hs : s ≠ []) :
    ∃ r, resizeForXor n s = some r ∧ r.length = n ∧
      ∀ i, i < n → r[i]? = s[i % s.length]? := by
  have hbase : ∀ i, i < s.length → s[i]? = s[i % s.length]? := by
    intro i hi
    rw [Nat.mod_eq_of_lt hi]
  unfold resizeForXor
  by_cases hlt : n < s.length
  · simp only [hlt, if_true]
    refine ⟨s.take n, rfl, by simp only [List.length_take]; omega, ?_⟩
    intro i hi
    rw [List.getElem?_take_of_lt hi]
    exact hbase i (by omega)
  · by_cases hgt : n > s.length
    · obtain ⟨r, hr, hn, hper⟩ :=
        doubleUntil_tiled n s (n - s.length) s (Nat.le_refl _) hs (Nat.dvd_refl _) hbase
      simp only [hlt, hgt, if_true, if_false, hr]
      refine ⟨r.take n, rfl, by simp only [List.length_take]; omega, ?_⟩
      intro i hi
      rw [List.getElem?_take_of_lt hi]
      exact hper i (by omega)
    · simp only [hlt, hgt, if_false]
      have heq : n = s.length := by omega
      refine ⟨s, rfl, heq.symm, ?_⟩
      intro i hi
      exact hbase i (by omega)

/-- Byte `i` of the bytewise exclusive or of `a` with a string `r` of the same length
that repeats `s`. -/
theorem zipWith_xor_tiled (a r s : Bytes)
    (hper : ∀ i, i < a.length → r[i]? = s[i % s.length]?) (hs : s ≠ [])
    (i : Nat) (hi : i < a.length) :
    (List.zipWith Nat.xor a r)[i]?
      = some (Nat.xor (a.getD i 0) (s.getD (i % s.length) 0)) := by
  have hspos : 0 < s.length := List.length_pos.mpr hs
  have hmod : i % s.length < s.length := Nat.mod_lt _ hspos
  rw [List.getElem?_zipWith, hper i hi, List.getElem?_eq_getElem hi,
    List.getElem?_eq_getElem hmod, List.getD_eq_getElem?_getD, List.getD_eq_getElem?_getD,
    List.getElem?_eq_getElem hi, List.getElem?_eq_getElem hmod]
  rfl

/-- C19. For a packet with non-empty master data `m` of length `n` (and non-empty
username and PIN, the PIN parsing as `pn`), when the obfuscation derivation
`SecurePassword(username, H(password ‖ rid), rounds pn)` succeeds with a
non-empty string `s` of length `k`: the resize / doubling loop ends with a string
`r` of length exactly `n` whose byte `i` is `s[i mod k]` for every `i < n`;
`ObfuscatePlainData` returns `true` with `obfuscated_master_data = XOR(m, r)`;
and when `XOR` is the bytewise exclusive or, `obfuscated_master_data` has length
`n` and its byte `i` is `m[i] XOR s[i mod k]`. `ClarifyObfuscatedData` does the
same with `obfuscated_master_data` in the place of `m`: it returns `true` with
`plain_text_master_data` the `XOR` of the obfuscated data with the string that
repeats `s`. -/
theorem TmidPacket_tiled_obfuscation (P : Primitives) (t : TmidPacket) (pn : Nat)
    (s : Bytes)
    (hm : t.plain_text_master_data ≠ []) (hu : t.username ≠ []) (hp : t.pin ≠ [])
    (hparse : P.lexical_cast t.pin = some pn)
    (hkdf : P.SecurePassword t.username (P.Hash (t.password ++ t.rid)) (rounds pn) = some s)
    (hs : s ≠ []) :
    (∃ r, resizeForXor t.plain_text_master_data.length s = some r ∧
      r.length = t.plain_text_master_data.length ∧
      (∀ i, i < t.plain_text_master_data.length → r[i]? = s[i % s.length]?) ∧
      TmidPacket.ObfuscatePlainData P t = .returns true
        { t with obfuscation_salt := P.Hash (t.password ++ t.rid),
                 obfuscated_master_data := P.XOR t.plain_text_master_data r } ∧
      (XorBytewise P →
        (P.XOR t.plain_text_master_data r).length = t.plain_text_master_data.length ∧
        ∀ i, i < t.plain_text_master_data.length →
          (P.XOR t.plain_text_master_data r)[i]?
            = some (Nat.xor (t.plain_text_master_data.getD i 0)
                (s.getD (i % s.length) 0)))) ∧
    (∃ r, resizeForXor t.obfuscated_master_data.length s = some r ∧
      r.length = t.obfuscated_master_data.length ∧
      (∀ i, i < t.obfuscated_master_data.length → r[i]? = s[i % s.length]?) ∧
      TmidPacket.ClarifyObfuscatedData P t = .returns true
        { t with plain_text_master_data := P.XOR t.obfuscated_master_data r } ∧
      (XorBytewise P →
        ∀ i, i < t.obfuscated_master_data.length →
          (P.XOR t.obfuscated_master_data r)[i]?
            = some (Nat.xor (t.obfuscated_master_data.getD i 0)
                (s.getD (i % s.length) 0)))) := by
  refine ⟨?_, ?_⟩
  · obtain ⟨r, hr, hlen, hper⟩ := resizeForXor_tiled t.plain_text_master_data.length s hs
    refine ⟨r, hr, hlen, hper,
      TmidPacket_ObfuscatePlainData_of_success P t pn s r hm hu hp hparse hkdf hr, ?_⟩
    intro hx
    rw [hx _ _ hlen.symm]
    refine ⟨?_, ?_⟩
    · simp only [List.length_zipWith, hlen, Nat.min_self]
    · intro i hi
      exact zipWith_xor_tiled t.plain_text_master_data r s hper hs i hi
  · obtain ⟨r, hr, hlen, hper⟩ := resizeForXor_tiled t.obfuscated_master_data.length s hs
    refine ⟨r, hr, hlen, hper,
      TmidPacket_ClarifyObfuscatedData_of_success P t pn s r hparse hkdf hr, ?_⟩
    intro hx i hi
    rw [hx _ _ hlen.symm]
    exact zipWith_xor_tiled t.obfuscated_master_data r s hper hs i hi

theorem sample_xorBytewise : XorBytewise sample.primitives := by
  intro a b hab
  show sample.XOR a b = List.zipWith Nat.xor a b
  simp [sample.XOR, hab]

set_option maxRecDepth 100000 in
/-- C19 at `sample.primitives`: `sample.packet` with 100 bytes of master data and the
48-byte derived string `85, 86, ...`: the loop doubles the string twice, and byte
50 of the resized string is byte 2 of the derived string, 87. -/
theorem TmidPacket_tiled_obfuscation_witness :
    sample.primitives.SecurePassword sample.packet.username
      (sample.primitives.Hash (sample.packet.password ++ sample.packet.rid)) (rounds 1)
      = some (sample.stream 85) ∧
    ∃ r, resizeForXor 100 (sample.stream 85) = some r ∧ r.length = 100 ∧
      r[50]? = some 87 ∧
      TmidPacket.ObfuscatePlainData sample.primitives
          { sample.packet with plain_text_master_data := List.replicate 100 77 }
        = .returns true
          { sample.packet with plain_text_master_data := List.replicate 100 77,
                               obfuscated_master_data :=
                                 sample.primitives.XOR (List.replicate 100 77) r } ∧
      (sample.primitives.XOR (List.replicate 100 77) r)[50]? = some (Nat.xor 77 87) := by
  obtain ⟨⟨r, hr, hlen, hper, hobf, hxor⟩, _⟩ :=
    TmidPacket_tiled_obfuscation sample.primitives
      { sample.packet with plain_text_master_data := List.replicate 100 77 } 1
      (sample.stream 85) (by decide) (by decide) (by decide) (by decide) (by decide)
      (by decide)
  have h50 : r[50]? = some 87 := (hper 50 (by decide)).trans (by decide)
  have hx50 := (hxor sample_xorBytewise).2 50 (by decide)
  exact ⟨by decide, r, hr, hlen, h50, hobf, hx50.trans (by decide)⟩

/-! ## TmidPacket: the name and the stored ciphertext -/

/-- `SetPassword` leaves `name_` and `encrypted_master_data_` alone, or clears both. -/
theorem TmidPacket_SetPassword_final (P : Primitives) (t s : TmidPacket)
    (h : (TmidPacket.SetPassword P t).finalState = some s) :
    (s.name = t.name ∧ s.encrypted_master_data = t.encrypted_master_data) ∨
      (s.name = [] ∧ s.encrypted_master_data = []) := by
  generalize ho : TmidPacket.SetPassword P t = o at h
  unfold TmidPacket.SetPassword at ho
  dsimp only at ho
  repeat' split at ho
  all_goals
    subst ho
    simp only [Outcome.finalState, Option.some.injEq] at h
    subst h
    simp [TmidPacket.Clear]

/-- A successful `SetPassword` leaves `name_` and `encrypted_master_data_` alone. -/
theorem TmidPacket_SetPassword_true (P : Primitives) (t s : TmidPacket)
    (h : TmidPacket.SetPassword P t = .returns true s) :
    s.name = t.name ∧ s.encrypted_master_data = t.encrypted_master_data := by
  unfold TmidPacket.SetPassword at h
  dsimp only at h
  repeat' split at h
  all_goals
    first
      | exact Outcome.noConfusion h
      | (simp only [Outcome.returns.injEq, true_and] at h
         subst h
         exact ⟨rfl, rfl⟩)
      | (simp only [Outcome.returns.injEq, Bool.false_eq_true, false_and] at h)

/-- `ObfuscatePlainData` does not touch `name_`. -/
theorem TmidPacket_ObfuscatePlainData_final (P : Primitives) (t s : TmidPacket)
    (h : (TmidPacket.ObfuscatePlainData P t).finalState = some s) : s.name = t.name := by
  generalize ho : TmidPacket.ObfuscatePlainData P t = o at h
  unfold TmidPacket.ObfuscatePlainData at ho
  dsimp only at ho
  repeat' split at ho
  all_goals
    subst ho
    simp only [Outcome.finalState, Option.some.injEq] at h
    first
      | exact Option.noConfusion h
      | (subst h; rfl)

/-- `ClarifyObfuscatedData` touches neither `name_` nor `encrypted_master_data_`. -/
theorem TmidPacket_ClarifyObfuscatedData_final (P : Primitives) (t s : TmidPacket)
    (h : (TmidPacket.ClarifyObfuscatedData P t).finalState = some s) :
    s.name = t.name ∧ s.encrypted_master_data = t.encrypted_master_data := by
  generalize ho : TmidPacket.ClarifyObfuscatedData P t = o at h
  unfold TmidPacket.ClarifyObfuscatedData at ho
  repeat' split at ho
  all_goals
    subst ho
    simp only [Outcome.finalState, Option.some.injEq] at h
    first
      | exact Option.noConfusion h
      | (subst h; exact ⟨rfl, rfl⟩)

/-- `SetPlainData` leaves `name_` alone or clears it. -/
theorem TmidPacket_SetPlainData_name (P : Primitives) (t : TmidPacket) :
    (TmidPacket.SetPlainData P t).2.name = t.name ∨
      (TmidPacket.SetPlainData P t).2.name = [] := by
  unfold TmidPacket.SetPlainData
  dsimp only
  repeat' split
  all_goals simp [TmidPacket.Clear]

/-- What `DecryptMasterData` makes of `name_` and `encrypted_master_data_`: it
clears both, or leaves both, or leaves the name and stores the given non-empty
ciphertext. -/
theorem TmidPacket_DecryptMasterData_final (P : Primitives) (t t2 : TmidPacket)
    (pw c : Bytes)
    (h : (TmidPacket.DecryptMasterData P t pw c).finalState = some t2) :
    (t2.name = [] ∧ t2.encrypted_master_data = []) ∨
    (t2.name = t.name ∧ t2.encrypted_master_data = t.encrypted_master_data) ∨
    (t2.name = t.name ∧ t2.encrypted_master_data = c ∧ c ≠ []) := by
  unfold TmidPacket.DecryptMasterData at h
  dsimp only at h
  cases h1 : TmidPacket.SetPassword P { t with password := pw } with
  | diverges =>
    rw [h1] at h
    exact Option.noConfusion h
  | throws e s1 =>
    have hs := TmidPacket_SetPassword_final P _ s1 (by rw [h1]; rfl)
    rw [h1] at h
    simp only [Outcome.finalState, Option.some.injEq] at h
    subst h
    rcases hs with hs | hs
    · exact Or.inr (Or.inl hs)
    · exact Or.inl hs
  | returns b s1 =>
    have hs := TmidPacket_SetPassword_final P _ s1 (by rw [h1]; rfl)
    rw [h1] at h
    cases b with
    | false =>
      simp only [Outcome.finalState, Option.some.injEq] at h
      subst h
      rcases hs with hs | hs
      · exact Or.inr (Or.inl hs)
      · exact Or.inl hs
    | true =>
      dsimp only at h
      by_cases hc : c.isEmpty = true
      · simp only [hc, if_true, Outcome.finalState, Option.some.injEq] at h
        subst h
        rcases hs with hs | hs
        · exact Or.inr (Or.inl hs)
        · exact Or.inl hs
      · simp only [hc, Bool.false_eq_true, if_false] at h
        have hcne : c ≠ [] := ne_nil_of_isEmpty_eq_false (by simpa using hc)
        by_cases hd : (P.SymmDecrypt c s1.secure_key s1.secure_iv).isEmpty = true
        · simp only [hd, if_true] at h
          generalize ho : TmidPacket.ClarifyObfuscatedData P _ = o at h
          have hfin := TmidPacket_ClarifyObfuscatedData_final P _ t2 (by
            rw [ho]
            cases o with
            | diverges => exact Option.noConfusion h
            | throws e s2 => exact h
            | returns b2 s2 => cases b2 <;> exact h)
          exact Or.inl ⟨hfin.1, hfin.2⟩
        · simp only [hd, Bool.false_eq_true, if_false] at h
          generalize ho : TmidPacket.ClarifyObfuscatedData P _ = o at h
          have hfin := TmidPacket_ClarifyObfuscatedData_final P _ t2 (by
            rw [ho]
            cases o with
            | diverges => exact Option.noConfusion h
            | throws e s2 => exact h
            | returns b2 s2 => cases b2 <;> exact h)
          have hs1 := TmidPacket_SetPassword_true P _ s1 h1
          exact Or.inr (Or.inr ⟨hfin.1.trans hs1.1, hfin.2, hcne⟩)

/-- Started on a packet without a name, `Initialise` returns a packet with no name or
with the name `H(encrypted_master_data)`. -/
theorem TmidPacket_Initialise_name_invariant (P : Primitives) (init t : TmidPacket)
    (hinitname : init.name = []) (h : TmidPacket.Initialise P init = .returns () t) :
    t.name = [] ∨ t.name = P.Hash t.encrypted_master_data := by
  unfold TmidPacket.Initialise at h
  by_cases hc : (init.username.isEmpty || init.pin.isEmpty || init.rid.isEmpty) = true
  · rw [if_pos hc] at h
    simp only [Outcome.returns.injEq, true_and] at h
    subst h
    exact Or.inl rfl
  · rw [if_neg hc] at h
    cases h1 : TmidPacket.SetPassword P init with
    | diverges => rw [h1] at h; exact Outcome.noConfusion h
    | throws e s1 => rw [h1] at h; exact Outcome.noConfusion h
    | returns b s1 =>
      have hs1 : s1.name = [] := by
        rcases TmidPacket_SetPassword_final P init s1 (by rw [h1]; rfl) with hs | hs
        · exact hs.1.trans hinitname
        · exact hs.1
      rw [h1] at h
      cases b with
      | false =>
        simp only [Outcome.returns.injEq, true_and] at h
        subst h
        exact Or.inl hs1
      | true =>
        dsimp only at h
        cases h2 : TmidPacket.ObfuscatePlainData P s1 with
        | diverges => rw [h2] at h; exact Outcome.noConfusion h
        | throws e s2 => rw [h2] at h; exact Outcome.noConfusion h
        | returns b2 s2 =>
          have hs2 : s2.name = [] :=
            (TmidPacket_ObfuscatePlainData_final P s1 s2 (by rw [h2]; rfl)).trans hs1
          rw [h2] at h
          cases b2 with
          | false =>
            simp only [Outcome.returns.injEq, true_and] at h
            subst h
            exact Or.inl hs2
          | true =>
            dsimp only at h
            have hs3 := TmidPacket_SetPlainData_name P s2
            cases h3 : TmidPacket.SetPlainData P s2 with
            | mk b3 s3 =>
              rw [h3] at h hs3
              cases b3 with
              | false =>
                simp only [Outcome.returns.injEq, true_and] at h
                subst h
                rcases hs3 with hs3 | hs3
                · exact Or.inl (hs3.trans hs2)
                · exact Or.inl hs3
              | true =>
                simp only [Outcome.returns.injEq, true_and] at h
                subst h
                exact Or.inr rfl

/-- The packet the constructor returns has no name or the name `H(encrypted_master_data)`. -/
theorem TmidPacket_new_name_invariant (P : Primitives) (u p : Bytes) (s : Bool)
    (pw m : Bytes) (t : TmidPacket) (h : TmidPacket.new P u p s pw m = .returns () t) :
    t.name = [] ∨ t.name = P.Hash t.encrypted_master_data :=
  TmidPacket_Initialise_name_invariant P _ t rfl h

set_option maxRecDepth 100000 in
/-- C21, counterexample. `sample.packet` is what `TmidPacket("u", "1", false, "p",
"MNO")` returns, with `name = H(encrypted_master_data)`. The ciphertext
`[166, 13, 15, 13]` is the `encrypted_master_data` of `TmidPacket("u", "1", false,
"p", "XYZ")`. The call `DecryptMasterData("p", [166, 13, 15, 13])` on
`sample.packet` returns "XYZ" and leaves a reachable state whose name is not empty
and is not `H(encrypted_master_data)`: the ciphertext is stored, the name is the
old one. -/
theorem TmidPacket_name_not_hash_after_DecryptMasterData :
    TmidPacket.new sample.primitives [117] [49] false [112] [77, 78, 79]
      = .returns () sample.packet ∧
    sample.packet.name = sample.primitives.Hash sample.packet.encrypted_master_data ∧
    (∃ t, TmidPacket.new sample.primitives [117] [49] false [112] [88, 89, 90]
        = .returns () t ∧ t.encrypted_master_data = [166, 13, 15, 13]) ∧
    ∃ t2, TmidPacket.DecryptMasterData sample.primitives sample.packet [112]
        [166, 13, 15, 13] = .returns [88, 89, 90] t2 ∧
      TmidPacket.Reachable sample.primitives TmidPacket.anyCall t2 ∧
      t2.name = sample.packet.name ∧ t2.encrypted_master_data = [166, 13, 15, 13] ∧
      t2.name ≠ [] ∧ t2.name ≠ sample.primitives.Hash t2.encrypted_master_data := by
  have hnew : TmidPacket.new sample.primitives [117] [49] false [112] [77, 78, 79]
      = .returns () sample.packet := by decide
  have hdec : TmidPacket.DecryptMasterData sample.primitives sample.packet [112]
      [166, 13, 15, 13] = .returns [88, 89, 90]
        { sample.packet with plain_text_master_data := [88, 89, 90],
                             encrypted_master_data := [166, 13, 15, 13],
                             obfuscated_master_data := [13, 15, 13] } := by decide
  refine ⟨hnew, by decide, ⟨?_, ?_⟩, _, hdec, ?_, rfl, rfl, by decide, by decide⟩
  · exact { sample.packet with name := sample.Hash [166, 13, 15, 13],
                               plain_text_master_data := [88, 89, 90],
                               encrypted_master_data := [166, 13, 15, 13],
                               obfuscated_master_data := [13, 15, 13] }
  · exact ⟨by decide, rfl⟩
  · exact TmidPacket.Reachable.DecryptMasterData sample.packet [112] [166, 13, 15, 13] _
      (TmidPacket.Reachable.new [117] [49] false [112] [77, 78, 79] sample.packet hnew)
      trivial (by rw [hdec]; rfl)

/-- C21, amended. The packet the constructor returns has no name or the name
`H(encrypted_master_data)`. In every state reachable from a constructor by `Clear`
and by calls `DecryptMasterData(password, c)` in which `c` is empty, or the packet
has no name, or `H(c)` is the name of the packet: if `name` is not empty then
`name = H(encrypted_master_data)`. A call `DecryptMasterData(password, c)` that
ends (by returning or throwing) never computes a name: afterwards `name` is the
name before or empty, and `encrypted_master_data` is the one before, or `c`, or
empty. -/
theorem TmidPacket_name_invariant (P : Primitives) :
    (∀ u p s pw m t, TmidPacket.new P u p s pw m = .returns () t →
      t.name = [] ∨ t.name = P.Hash t.encrypted_master_data) ∧
    (∀ t, TmidPacket.Reachable P (TmidPacket.namePreservingCall P) t →
      t.name ≠ [] → t.name = P.Hash t.encrypted_master_data) ∧
    (∀ t pw c t2, (TmidPacket.DecryptMasterData P t pw c).finalState = some t2 →
      (t2.name = t.name ∨ t2.name = []) ∧
      (t2.encrypted_master_data = t.encrypted_master_data ∨ t2.encrypted_master_data = c ∨
        t2.encrypted_master_data = [])) := by
  refine ⟨fun u p s pw m t h => TmidPacket_new_name_invariant P u p s pw m t h, ?_, ?_⟩
  · intro t hreach
    have hinv : t.name = [] ∨ t.name = P.Hash t.encrypted_master_data := by
      induction hreach with
      | newEmpty => exact Or.inl rfl
      | new u p s pw m t h => exact TmidPacket_new_name_invariant P u p s pw m t h
      | Clear t _ _ => exact Or.inl rfl
      | DecryptMasterData t pw c t2 _ hallowed hfin ih =>
        rcases TmidPacket_DecryptMasterData_final P t t2 pw c hfin with h | h | h
        · exact Or.inl h.1
        · rcases ih with ih | ih
          · exact Or.inl (h.1.trans ih)
          · exact Or.inr (by rw [h.1, h.2]; exact ih)
        · rcases hallowed with ha | ha | ha
          · exact absurd ha h.2.2
          · exact Or.inl (h.1.trans ha)
          · exact Or.inr (by rw [h.1, h.2.1]; exact ha.symm)
    intro hne
    exact hinv.resolve_left hne
  · intro t pw c t2 hfin
    rcases TmidPacket_DecryptMasterData_final P t t2 pw c hfin with h | h | h
    · exact ⟨Or.inr h.1, Or.inr (Or.inr h.2)⟩
    · exact ⟨Or.inl h.1, Or.inl h.2⟩
    · exact ⟨Or.inl h.1, Or.inr (Or.inl h.2.1)⟩

set_option maxRecDepth 100000 in
/-- C21 (amended) at `sample.primitives`: the sibling packet, which has no name, after
`DecryptMasterData("p", [166, 13, 15, 13])`, and `sample.packet` after
`DecryptMasterData("p", c)` with its own ciphertext `c`, whose hash is its name. -/
theorem TmidPacket_name_invariant_witness :
    (∃ t2, TmidPacket.DecryptMasterData sample.primitives sample.sibling [112]
        [166, 13, 15, 13] = .returns [88, 89, 90] t2 ∧ t2.name = []) ∧
    (∃ t2, TmidPacket.DecryptMasterData sample.primitives sample.packet [112]
        sample.packet.encrypted_master_data = .returns [77, 78, 79] t2 ∧
      t2.name ≠ [] ∧ t2.name = sample.primitives.Hash t2.encrypted_master_data) := by
  have h := TmidPacket_name_invariant sample.primitives
  have hnew : TmidPacket.new sample.primitives [117] [49] false [112] [77, 78, 79]
      = .returns () sample.packet := by decide
  have hdec1 : TmidPacket.DecryptMasterData sample.primitives sample.sibling [112]
      [166, 13, 15, 13] = .returns [88, 89, 90]
        { sample.packet with name := [], plain_text_master_data := [88, 89, 90],
                             encrypted_master_data := [166, 13, 15, 13],
                             obfuscated_master_data := [13, 15, 13],
                             obfuscation_salt := [] } := by decide
  have hdec2 : TmidPacket.DecryptMasterData sample.primitives sample.packet [112]
      sample.packet.encrypted_master_data = .returns [77, 78, 79] sample.packet := by decide
  refine ⟨⟨_, hdec1, ?_⟩, ⟨_, hdec2, by decide, ?_⟩⟩
  · have h1 := (h.2.2 sample.sibling [112] [166, 13, 15, 13] _ (by rw [hdec1]; rfl)).1
    rcases h1 with h1 | h1
    · exact h1
    · exact h1
  · exact h.2.1 sample.packet
      (TmidPacket.Reachable.DecryptMasterData sample.packet [112]
        sample.packet.encrypted_master_data sample.packet
        (TmidPacket.Reachable.new [117] [49] false [112] [77, 78, 79] sample.packet hnew)
        (Or.inr (Or.inr (by decide))) (by rw [hdec2]; rfl))
      (by decide)

/-! ## Fobs: decoding an Mpid -/

/-- C23. The name hashes the undelimited concatenation: moving bytes from the end of
the username to the front of the PIN does not change `GetMidName`. For the
pairs ("user1", "23") and ("user", "123"), which differ, and any appendix `a`: the
name inputs `username ‖ pin ‖ a` are equal and the salt inputs `pin ‖ username`
differ; when both PINs parse and both key derivations succeed with at least
`key_size + iv_size` bytes, both constructors return and the two packets have the
same name, `H("user123" ‖ a)`; and when that digest is not empty their salts are
`H("23user1")` and `H("123user")`. -/
theorem MidPacket_name_not_injective (P : Primitives) (a sp1 sp2 : Bytes) (n1 n2 : Nat)
    (hparse1 : P.lexical_cast str_23 = some n1)
    (hparse2 : P.lexical_cast str_123 = some n2)
    (hkdf1 : P.SecurePassword str_user1 (P.Hash (str_23 ++ str_user1)) n1 = some sp1)
    (hlen1 : P.AES256_KeySize + P.AES256_IVSize ≤ sp1.length)
    (hkdf2 : P.SecurePassword str_user (P.Hash (str_123 ++ str_user)) n2 = some sp2)
    (hlen2 : P.AES256_KeySize + P.AES256_IVSize ≤ sp2.length) :
    (∀ u x p b : Bytes, GetMidName P (u ++ x) p b = GetMidName P u (x ++ p) b) ∧
    (str_user1, str_23) ≠ (str_user, str_123) ∧
    str_user1 ≠ [] ∧ str_user ≠ [] ∧
    str_user1 ++ str_23 ++ a = str_user ++ str_123 ++ a ∧
    str_23 ++ str_user1 ≠ str_123 ++ str_user ∧
    ∃ m1 m2, MidPacket.new P str_user1 str_23 a = .returns () m1 ∧
      MidPacket.new P str_user str_123 a = .returns () m2 ∧
      m1.name = m2.name ∧ m1.name = P.Hash (str_user ++ str_123 ++ a) ∧
      (P.Hash (str_user ++ str_123 ++ a) ≠ [] →
        m1.salt = P.Hash (str_23 ++ str_user1) ∧ m2.salt = P.Hash (str_123 ++ str_user)) := by
  have hin : str_user1 ++ str_23 ++ a = str_user ++ str_123 ++ a := by
    simp [str_user1, str_23, str_user, str_123]
  have hu1 : str_user1 ≠ [] := by decide
  have hu2 : str_user ≠ [] := by decide
  have hp1 : str_23 ≠ [] := by decide
  have hp2 : str_123 ≠ [] := by decide
  obtain ⟨m1, h1, _, hn1⟩ :=
    MidPacket_new_name P str_user1 str_23 a sp1 n1 hu1 hp1 hparse1 hkdf1 hlen1
  obtain ⟨m2, h2, _, hn2⟩ :=
    MidPacket_new_name P str_user str_123 a sp2 n2 hu2 hp2 hparse2 hkdf2 hlen2
  refine ⟨?_, by decide, hu1, hu2, hin, by decide, m1, m2, h1, h2, ?_, ?_, ?_⟩
  · intro u x p b
    simp only [GetMidName, List.append_assoc]
  · rw [hn1, hn2, hin]
  · rw [hn1, hin]
  · intro hne
    have hne1 : P.Hash (str_user1 ++ str_23 ++ a) ≠ [] := by rw [hin]; exact hne
    have e1 := MidPacket_new_of_success P str_user1 str_23 a sp1 n1 hu1 hp1 hparse1 hkdf1
      hlen1 hne1
    have e2 := MidPacket_new_of_success P str_user str_123 a sp2 n2 hu2 hp2 hparse2 hkdf2
      hlen2 hne
    rw [h1] at e1
    rw [h2] at e2
    simp only [Outcome.returns.injEq, true_and] at e1 e2
    subst e1 e2
    exact ⟨rfl, rfl⟩

set_option maxRecDepth 100000 in
/-- C23 at `sample.primitives` with no appendix: the PINs parse as 23 and 123, both
key derivations succeed, the two packets have the same non-empty name and
different salts. -/
theorem MidPacket_name_not_injective_witness :
    sample.primitives.lexical_cast str_23 = some 23 ∧
    sample.primitives.lexical_cast str_123 = some 123 ∧
    ∃ m1 m2, MidPacket.new sample.primitives str_user1 str_23 [] = .returns () m1 ∧
      MidPacket.new sample.primitives str_user str_123 [] = .returns () m2 ∧
      m1.name = m2.name ∧ m1.name ≠ [] ∧ m1.salt ≠ m2.salt := by
  obtain ⟨_, _, _, _, _, _, m1, m2, h1, h2, hn, hn1, hs⟩ :=
    MidPacket_name_not_injective sample.primitives [] (sample.stream 132) (sample.stream 295)
      23 123 (by decide) (by decide) (by decide) (by decide) (by decide) (by decide)
  have hsalt := hs (by decide)
  refine ⟨by decide, by decide, m1, m2, h1, h2, hn, ?_, ?_⟩
  · rw [hn1]
    decide
  · rw [hsalt.1, hsalt.2]
    decide

end passport
end maidsafe
